import Mathlib

/-!
Verification of the NLTK Porter stemmer (`nltk/stem/porter.py`).

Words are modelled as `List Char`.  Python's negative-index and slice
conventions are translated explicitly; the two `while`-loop nests of `_m`
are embedded with an explicit fuel parameter bounding the number of
iterations (the wrapper always passes enough fuel, which is proved below).
-/

set_option maxRecDepth 20000

namespace Porter

/-- `word.lower()`, characterwise ASCII case folding. -/
def lower (word : List Char) : List Char := word.map Char.toLower

/-- A Lean string literal as the list of its characters. -/
def toL (s : String) : List Char := s.toList

/-- `self.vowels = frozenset(['a', 'e', 'i', 'o', 'u'])` -/
def vowels : List Char := ['a', 'e', 'i', 'o', 'u']

/-- `_cons(word, i)`: `word[i]` is a consonant.  A `'y'` at position 0 is a
consonant; later it is a consonant iff the previous character is not.
Out-of-range reads (which the Python never performs on the indices it is
called with) give the non-vowel, non-y default `' '`. -/
def cons (word : List Char) : Nat → Bool
  | 0 => if word.getD 0 ' ' ∈ vowels then false else true
  | i + 1 =>
    if word.getD (i + 1) ' ' ∈ vowels then false
    else if word.getD (i + 1) ' ' = 'y' then !cons word i
    else true

/-- Program counter for `_m`'s loop nest: the initial consonant-skipping
loop, the vowel-skipping loop (whose break advances and counts), and the
trailing consonant-skipping loop. -/
inductive MPhase
  | initial
  | vowelRun
  | consRun

/-- The loop nest of `_m(word, j)`, one iteration per unit of fuel.
Every iteration either returns `n` (when `i > j`) or advances `i` by one,
so fuel `(j + 1).toNat + 1` always reaches the `return`. -/
def mStep (word : List Char) (j : Int) : Nat → MPhase → Nat → Nat → Nat
  | 0, _, _, n => n
  | fuel + 1, ph, i, n =>
    match ph with
    | .initial =>
      if (i : Int) > j then n
      else if cons word i = false then mStep word j fuel .vowelRun (i + 1) n
      else mStep word j fuel .initial (i + 1) n
    | .vowelRun =>
      if (i : Int) > j then n
      else if cons word i = true then mStep word j fuel .consRun (i + 1) (n + 1)
      else mStep word j fuel .vowelRun (i + 1) n
    | .consRun =>
      if (i : Int) > j then n
      else if cons word i = false then mStep word j fuel .vowelRun (i + 1) n
      else mStep word j fuel .consRun (i + 1) n

/-- `_m(word, j)`: the number of consonant sequences in `word[0..j]`. -/
def mPorter (word : List Char) (j : Int) : Nat :=
  mStep word j ((j + 1).toNat + 1) .initial 0 0

/-- `_measure`'s c/v classification string of the whole stem. -/
def cv_sequence (stem : List Char) : List Char :=
  (List.range stem.length).map (fun i => if cons stem i then 'c' else 'v')

/-- `cv_sequence.count('vc')`: occurrences of the two-character pattern
`"vc"` (for this pattern, non-overlapping count = sliding-window count). -/
def countVC : List Char → Nat
  | a :: b :: rest => (if a = 'v' ∧ b = 'c' then 1 else 0) + countVC (b :: rest)
  | _ => 0

/-- `_measure(stem)` -/
def measure (stem : List Char) : Nat := countVC (cv_sequence stem)

/-- `_vowelinstem(stem)` -/
def vowelinstem (stem : List Char) : Bool :=
  (List.range stem.length).any (fun i => !cons stem i)

/-- `_doublec(word)`: the word ends with a double consonant. -/
def doublec (word : List Char) : Bool :=
  if word.length < 2 then false
  else if word.getD (word.length - 1) ' ' ≠ word.getD (word.length - 2) ' ' then false
  else cons word (word.length - 1)

/-- `_ends_cvc(word)`: condition *o of the paper (last three characters
consonant–vowel–consonant, final consonant not w, x or y). -/
def ends_cvc (word : List Char) : Bool :=
  decide (3 ≤ word.length) &&
  cons word (word.length - 3) &&
  !cons word (word.length - 2) &&
  cons word (word.length - 1) &&
  decide (word.getD (word.length - 1) ' ' ∉ (['w', 'x', 'y'] : List Char))

/-- `_cvc(word, i)`, including the `--NEW--` `i == 1` vowel–consonant test. -/
def cvc (word : List Char) (i : Nat) : Bool :=
  if i = 0 then false
  else if i = 1 then !cons word 0 && cons word 1
  else if !cons word i || cons word (i - 1) || !cons word (i - 2) then false
  else if word.getD i ' ' = 'w' ∨ word.getD i ' ' = 'x' ∨ word.getD i ' ' = 'y' then false
  else true

/-- Python `word.endswith(suffix)`. -/
def endswith (word suffix : List Char) : Bool :=
  if suffix.length ≤ word.length then word.drop (word.length - suffix.length) == suffix
  else false

/-- `_replace_suffix`: `word[:-len(suffix)] + replacement`.  Note the
Python slice quirk: `word[:-0]` is the empty string, so an empty suffix
replaces the whole word with `replacement`. -/
def replace_suffix (word suffix replacement : List Char) : List Char :=
  (if suffix.length = 0 then [] else word.take (word.length - suffix.length)) ++ replacement

/-- `_replace_suffix_if`: `none` for both `_CannotReplaceSuffix` cases
(word does not end with the suffix / condition not met). -/
def replace_suffix_if (word suffix replacement : List Char)
    (condition : Option (List Char → Bool)) : Option (List Char) :=
  if endswith word suffix then
    let stem := replace_suffix word suffix replacement
    match condition with
    | none => some stem
    | some c => if c stem then some stem else none
  else none

/-- `_apply_first_possible_rule(word, rules)` -/
def apply_first_possible_rule (word : List Char) :
    List (List Char × List Char × Option (List Char → Bool)) → List Char
  | [] => word
  | (suffix, replacement, condition) :: rest =>
    match replace_suffix_if word suffix replacement condition with
    | some stem => stem
    | none => apply_first_possible_rule word rest

/-- `_step1a(word)` -/
def step1a (word : List Char) : List Char :=
  apply_first_possible_rule word [
    (toL "sses", toL "ss", none),
    (toL "ies", toL "ie", some fun _ => word.length == 4),
    (toL "ies", toL "i", none),
    (toL "ss", toL "ss", none),
    (toL "s", [], none)]

/-- `_step1b(word)` -/
def step1b (word : List Char) : List Char :=
  match replace_suffix_if word (toL "ied") (toL "ie") (some fun _ => word.length == 4) with
  | some stem => stem
  | none =>
  match replace_suffix_if word (toL "eed") (toL "ee") (some fun stem => decide (0 < measure stem)) with
  | some stem => stem
  | none =>
  match (replace_suffix_if word (toL "ed") [] (some vowelinstem)).orElse
      (fun _ => replace_suffix_if word (toL "ing") [] (some vowelinstem)) with
  | none => word
  | some intermediate_stem =>
    let final_letter := intermediate_stem.getLastD ' '
    apply_first_possible_rule intermediate_stem [
      (toL "at", toL "ate", none),
      (toL "bl", toL "ble", none),
      (toL "iz", toL "ize", none),
      ([final_letter, final_letter], [final_letter],
        some fun _ => decide (final_letter ∉ (['l', 's', 'z'] : List Char))),
      ([], toL "e", some fun stem => decide (measure stem = 1) && ends_cvc stem)]

/-- `_step1c(word)`: terminal y → i when preceded by a consonant and the
word is longer than two characters. -/
def step1c (word : List Char) : List Char :=
  if word.getLastD ' ' = 'y' ∧ 2 < word.length ∧ cons word (word.length - 2) = true then
    word.dropLast ++ ['i']
  else word

/-- The body of `_step2`, with the self-invocation of the `alli` branch
metered by fuel (each re-invocation is on a word shorter by two). -/
def step2F : Nat → List Char → List Char
  | 0, word => word
  | fuel + 1, word =>
    if word.length ≤ 1 then word
    else
      let ch := word.getD (word.length - 2) ' '
      if ch = 'a' then
        if endswith word (toL "ational") then
          if 0 < mPorter word ((word.length : Int) - 8) then word.take (word.length - 7) ++ toL "ate" else word
        else if endswith word (toL "tional") then
          if 0 < mPorter word ((word.length : Int) - 7) then word.take (word.length - 2) else word
        else word
      else if ch = 'c' then
        if endswith word (toL "enci") then
          if 0 < mPorter word ((word.length : Int) - 5) then word.take (word.length - 4) ++ toL "ence" else word
        else if endswith word (toL "anci") then
          if 0 < mPorter word ((word.length : Int) - 5) then word.take (word.length - 4) ++ toL "ance" else word
        else word
      else if ch = 'e' then
        if endswith word (toL "izer") then
          if 0 < mPorter word ((word.length : Int) - 5) then word.take (word.length - 1) else word
        else word
      else if ch = 'l' then
        if endswith word (toL "bli") then
          if 0 < mPorter word ((word.length : Int) - 4) then word.take (word.length - 3) ++ toL "ble" else word
        else if endswith word (toL "alli") then
          if 0 < mPorter word ((word.length : Int) - 5) then step2F fuel (word.take (word.length - 2)) else word
        else if endswith word (toL "fulli") then
          if mPorter word ((word.length : Int) - 6) ≠ 0 then word.take (word.length - 2) else word
        else if endswith word (toL "entli") then
          if mPorter word ((word.length : Int) - 6) ≠ 0 then word.take (word.length - 2) else word
        else if endswith word (toL "eli") then
          if mPorter word ((word.length : Int) - 4) ≠ 0 then word.take (word.length - 2) else word
        else if endswith word (toL "ousli") then
          if mPorter word ((word.length : Int) - 6) ≠ 0 then word.take (word.length - 2) else word
        else word
      else if ch = 'o' then
        if endswith word (toL "ization") then
          if mPorter word ((word.length : Int) - 8) ≠ 0 then word.take (word.length - 7) ++ toL "ize" else word
        else if endswith word (toL "ation") then
          if mPorter word ((word.length : Int) - 6) ≠ 0 then word.take (word.length - 5) ++ toL "ate" else word
        else if endswith word (toL "ator") then
          if mPorter word ((word.length : Int) - 5) ≠ 0 then word.take (word.length - 4) ++ toL "ate" else word
        else word
      else if ch = 's' then
        if endswith word (toL "alism") then
          if mPorter word ((word.length : Int) - 6) ≠ 0 then word.take (word.length - 3) else word
        else if endswith word (toL "ness") then
          if endswith word (toL "iveness") then
            if mPorter word ((word.length : Int) - 8) ≠ 0 then word.take (word.length - 4) else word
          else if endswith word (toL "fulness") then
            if mPorter word ((word.length : Int) - 8) ≠ 0 then word.take (word.length - 4) else word
          else if endswith word (toL "ousness") then
            if mPorter word ((word.length : Int) - 8) ≠ 0 then word.take (word.length - 4) else word
          else word
        else word
      else if ch = 't' then
        if endswith word (toL "aliti") then
          if mPorter word ((word.length : Int) - 6) ≠ 0 then word.take (word.length - 3) else word
        else if endswith word (toL "iviti") then
          if mPorter word ((word.length : Int) - 6) ≠ 0 then word.take (word.length - 5) ++ toL "ive" else word
        else if endswith word (toL "biliti") then
          if mPorter word ((word.length : Int) - 7) ≠ 0 then word.take (word.length - 6) ++ toL "ble" else word
        else word
      else if ch = 'g' then
        if endswith word (toL "logi") then
          if mPorter word ((word.length : Int) - 4) ≠ 0 then word.take (word.length - 1) else word
        else word
      else word

/-- `_step2(word)`.  Fuel `word.length` is always sufficient (proved
below): each `alli` re-invocation is on a strictly shorter word. -/
def step2 (word : List Char) : List Char := step2F word.length word

/-- `_step3(word)` -/
def step3 (word : List Char) : List Char :=
  let ch := word.getLastD ' '
  if ch = 'e' then
    if endswith word (toL "icate") then
      if mPorter word ((word.length : Int) - 6) ≠ 0 then word.take (word.length - 3) else word
    else if endswith word (toL "ative") then
      if mPorter word ((word.length : Int) - 6) ≠ 0 then word.take (word.length - 5) else word
    else if endswith word (toL "alize") then
      if mPorter word ((word.length : Int) - 6) ≠ 0 then word.take (word.length - 3) else word
    else word
  else if ch = 'i' then
    if endswith word (toL "iciti") then
      if mPorter word ((word.length : Int) - 6) ≠ 0 then word.take (word.length - 3) else word
    else word
  else if ch = 'l' then
    if endswith word (toL "ical") then
      if mPorter word ((word.length : Int) - 5) ≠ 0 then word.take (word.length - 2) else word
    else if endswith word (toL "ful") then
      if mPorter word ((word.length : Int) - 4) ≠ 0 then word.take (word.length - 3) else word
    else word
  else if ch = 's' then
    if endswith word (toL "ness") then
      if mPorter word ((word.length : Int) - 5) ≠ 0 then word.take (word.length - 4) else word
    else word
  else word

/-- `_step4(word)` -/
def step4 (word : List Char) : List Char :=
  if word.length ≤ 1 then word
  else
    let ch := word.getD (word.length - 2) ' '
    if ch = 'a' then
      if endswith word (toL "al") then
        if 1 < mPorter word ((word.length : Int) - 3) then word.take (word.length - 2) else word
      else word
    else if ch = 'c' then
      if endswith word (toL "ance") then
        if 1 < mPorter word ((word.length : Int) - 5) then word.take (word.length - 4) else word
      else if endswith word (toL "ence") then
        if 1 < mPorter word ((word.length : Int) - 5) then word.take (word.length - 4) else word
      else word
    else if ch = 'e' then
      if endswith word (toL "er") then
        if 1 < mPorter word ((word.length : Int) - 3) then word.take (word.length - 2) else word
      else word
    else if ch = 'i' then
      if endswith word (toL "ic") then
        if 1 < mPorter word ((word.length : Int) - 3) then word.take (word.length - 2) else word
      else word
    else if ch = 'l' then
      if endswith word (toL "able") then
        if 1 < mPorter word ((word.length : Int) - 5) then word.take (word.length - 4) else word
      else if endswith word (toL "ible") then
        if 1 < mPorter word ((word.length : Int) - 5) then word.take (word.length - 4) else word
      else word
    else if ch = 'n' then
      if endswith word (toL "ant") then
        if 1 < mPorter word ((word.length : Int) - 4) then word.take (word.length - 3) else word
      else if endswith word (toL "ement") then
        if 1 < mPorter word ((word.length : Int) - 6) then word.take (word.length - 5) else word
      else if endswith word (toL "ment") then
        if 1 < mPorter word ((word.length : Int) - 5) then word.take (word.length - 4) else word
      else if endswith word (toL "ent") then
        if 1 < mPorter word ((word.length : Int) - 4) then word.take (word.length - 3) else word
      else word
    else if ch = 'o' then
      if endswith word (toL "sion") || endswith word (toL "tion") then
        if 1 < mPorter word ((word.length : Int) - 4) then word.take (word.length - 3) else word
      else if endswith word (toL "ou") then
        if 1 < mPorter word ((word.length : Int) - 3) then word.take (word.length - 2) else word
      else word
    else if ch = 's' then
      if endswith word (toL "ism") then
        if 1 < mPorter word ((word.length : Int) - 4) then word.take (word.length - 3) else word
      else word
    else if ch = 't' then
      if endswith word (toL "ate") then
        if 1 < mPorter word ((word.length : Int) - 4) then word.take (word.length - 3) else word
      else if endswith word (toL "iti") then
        if 1 < mPorter word ((word.length : Int) - 4) then word.take (word.length - 3) else word
      else word
    else if ch = 'u' then
      if endswith word (toL "ous") then
        if 1 < mPorter word ((word.length : Int) - 4) then word.take (word.length - 3) else word
      else word
    else if ch = 'v' then
      if endswith word (toL "ive") then
        if 1 < mPorter word ((word.length : Int) - 4) then word.take (word.length - 3) else word
      else word
    else if ch = 'z' then
      if endswith word (toL "ize") then
        if 1 < mPorter word ((word.length : Int) - 4) then word.take (word.length - 3) else word
      else word
    else word

/-- First half of `_step5` (step 5a): final-e removal. -/
def step5e (word : List Char) : List Char :=
  if word.getLastD ' ' = 'e' then
    let a := mPorter word ((word.length : Int) - 1)
    if 1 < a ∨ (a = 1 ∧ cvc word (word.length - 2) = false) then word.dropLast else word
  else word

/-- Second half of `_step5` (step 5b): the -ll collapse, run on 5a's output. -/
def step5ll (word : List Char) : List Char :=
  if endswith word (toL "ll") = true ∧ 1 < mPorter word ((word.length : Int) - 1) then word.dropLast
  else word

/-- `_step5(word)`: the two reassignments in sequence. -/
def step5 (word : List Char) : List Char := step5ll (step5e word)

/-- The `irregular_forms` table of `__init__`: paradigm ↦ surface forms. -/
def irregular_forms : List (List Char × List (List Char)) := [
  (toL "sky", [toL "sky", toL "skies"]),
  (toL "die", [toL "dying"]),
  (toL "lie", [toL "lying"]),
  (toL "tie", [toL "tying"]),
  (toL "news", [toL "news"]),
  (toL "inning", [toL "innings", toL "inning"]),
  (toL "outing", [toL "outings", toL "outing"]),
  (toL "canning", [toL "cannings", toL "canning"]),
  (toL "howe", [toL "howe"]),
  (toL "proceed", [toL "proceed"]),
  (toL "exceed", [toL "exceed"]),
  (toL "succeed", [toL "succeed"])]

/-- `self.pool`: the inverted table, surface form ↦ paradigm. -/
def pool : List (List Char × List Char) :=
  (irregular_forms.map (fun kv => kv.2.map (fun val => (val, kv.1)))).flatten

/-- `stem(word)`: irregular lookup on the original word, length guard on the
original word, then the step pipeline on the lowercased word. -/
def stem (word : List Char) : List Char :=
  let stem0 := lower word
  match pool.lookup word with
  | some p => p
  | none =>
    if word.length ≤ 2 then word
    else step5 (step4 (step3 (step2 (step1c (step1b (step1a stem0))))))

/-! ### A toolkit for `endswith` -/

theorem endswith_iff {word suffix : List Char} :
    endswith word suffix = true ↔ ∃ p, p ++ suffix = word := by
  unfold endswith
  by_cases h : suffix.length ≤ word.length
  · simp only [if_pos h, beq_iff_eq]
    constructor
    · intro hd
      refine ⟨word.take (word.length - suffix.length), ?_⟩
      conv_rhs => rw [← List.take_append_drop (word.length - suffix.length) word]
      rw [hd]
    · rintro ⟨p, rfl⟩
      have hl : p.length + suffix.length - suffix.length = p.length := by omega
      rw [List.length_append, hl, List.drop_left]
  · simp only [if_neg h]
    refine ⟨fun hh => absurd hh (by simp), ?_⟩
    rintro ⟨p, rfl⟩
    exact absurd (by simp : suffix.length ≤ (p ++ suffix).length) h

theorem endswith_app (p suffix : List Char) : endswith (p ++ suffix) suffix = true :=
  endswith_iff.mpr ⟨p, rfl⟩

theorem endswith_length {word suffix : List Char} (h : endswith word suffix = true) :
    suffix.length ≤ word.length := by
  obtain ⟨p, rfl⟩ := endswith_iff.mp h
  simp

theorem endswith_trans {word s t : List Char} (hst : endswith s t = true)
    (hws : endswith word s = true) : endswith word t = true := by
  obtain ⟨q, rfl⟩ := endswith_iff.mp hst
  obtain ⟨p, rfl⟩ := endswith_iff.mp hws
  exact endswith_iff.mpr ⟨p ++ q, by rw [List.append_assoc]⟩

/-- Two suffixes of the same word: the shorter is the matching tail of the
longer.  Used with concrete suffixes to refute simultaneous matches. -/
theorem endswith_drop {word s t : List Char} (hs : endswith word s = true)
    (ht : endswith word t = true) (hl : s.length ≤ t.length) :
    t.drop (t.length - s.length) = s := by
  obtain ⟨p, hp⟩ := endswith_iff.mp hs
  obtain ⟨q, hq⟩ := endswith_iff.mp ht
  have hlen : q.length + (t.length - s.length) = word.length - s.length := by
    have h1 : q.length + t.length = word.length := by rw [← hq]; simp
    have h2 : s.length ≤ word.length := endswith_length hs
    omega
  have hd : word.drop (word.length - s.length) = s := by
    rw [← hp]
    have : p.length = (p ++ s).length - s.length := by simp
    rw [← this, List.drop_left]
  have hdd : (q ++ t).drop (q.length + (t.length - s.length)) = t.drop (t.length - s.length) := by
    rw [← List.drop_drop, List.drop_left]
  rw [← hdd, hlen, hq, hd]

/-! ### Indexing helpers -/

theorem getD_take {word : List Char} {i m : Nat} (h : i < m) :
    (word.take m).getD i ' ' = word.getD i ' ' := by
  simp [List.getD_eq_getElem?_getD, List.getElem?_take_of_lt h]

theorem getD_append_left {p s : List Char} {k : Nat} (h : k < p.length) :
    (p ++ s).getD k ' ' = p.getD k ' ' := by
  simp [List.getD_eq_getElem?_getD, List.getElem?_append_left h]

theorem getD_append_right {p s : List Char} {k : Nat} (h : p.length ≤ k) :
    (p ++ s).getD k ' ' = s.getD (k - p.length) ' ' := by
  simp [List.getD_eq_getElem?_getD, List.getElem?_append_right h]

theorem cons_take (word : List Char) (m : Nat) :
    ∀ i, i < m → cons (word.take m) i = cons word i := by
  intro i
  induction i with
  | zero =>
    intro h
    simp only [cons]
    rw [getD_take h]
  | succ i ih =>
    intro h
    have h1 : i < m := by omega
    simp only [cons]
    rw [getD_take h, ih h1]

theorem cons_append {p : List Char} (s : List Char) {i : Nat} (h : i < p.length) :
    cons (p ++ s) i = cons p i := by
  have := cons_take (p ++ s) p.length i h
  rw [List.take_left] at this
  exact this.symm

theorem cons_of_vowel {word : List Char} {i : Nat} (h : word.getD i ' ' ∈ vowels) :
    cons word i = false := by
  cases i <;> simp only [cons] <;> rw [if_pos h]

/-! ### The two measure computations agree

`vcCount word j i` counts the vowel→consonant boundaries `(k, k + 1)` with
`i ≤ k` and `k + 1 ≤ j`; it is the common value of `_m` (the loop nest,
restricted to `word[0..j]`) and `_measure` (the `"vc"` count over the
classification string). -/

def vcCount (word : List Char) (j : Int) (i : Nat) : Nat :=
  if h : (i : Int) + 1 > j then 0
  else (if cons word i = false ∧ cons word (i + 1) = true then 1 else 0) + vcCount word j (i + 1)
termination_by (j + 1 - i).toNat
decreasing_by omega

theorem vcCount_stop {word : List Char} {j : Int} {i : Nat} (h : (i : Int) + 1 > j) :
    vcCount word j i = 0 := by
  rw [vcCount, dif_pos h]

theorem vcCount_step {word : List Char} {j : Int} {i : Nat} (h : ¬((i : Int) + 1 > j)) :
    vcCount word j i =
      (if cons word i = false ∧ cons word (i + 1) = true then 1 else 0) + vcCount word j (i + 1) := by
  rw [vcCount, dif_neg h]

theorem vcCount_cons_true {word : List Char} {j : Int} {i : Nat} (h : cons word i = true) :
    vcCount word j i = vcCount word j (i + 1) := by
  by_cases h1 : (i : Int) + 1 > j
  · rw [vcCount_stop h1, vcCount_stop (by omega)]
  · rw [vcCount_step h1]
    simp [h]

/-- The three loop phases of `_m` compute `vcCount`, given enough fuel. -/
theorem mStep_spec (word : List Char) (j : Int) :
    ∀ (fuel : Nat) (i n : Nat),
      ((j + 1 - i).toNat < fuel → mStep word j fuel .initial i n = n + vcCount word j i)
      ∧ ((j + 1 - i).toNat ≤ fuel → cons word i = false →
          mStep word j fuel .vowelRun (i + 1) n = n + vcCount word j i)
      ∧ ((j + 1 - i).toNat ≤ fuel → cons word i = true →
          mStep word j fuel .consRun (i + 1) n = n + vcCount word j i) := by
  intro fuel
  induction fuel with
  | zero =>
    intro i n
    refine ⟨fun h => absurd h (by omega), fun h _ => ?_, fun h _ => ?_⟩ <;>
      · have hij : (i : Int) + 1 > j := by omega
        rw [vcCount_stop hij]
        simp [mStep]
  | succ fuel ih =>
    intro i n
    refine ⟨fun h => ?_, fun h hc => ?_, fun h hc => ?_⟩
    · -- initial phase at position i
      simp only [mStep]
      by_cases hij : (i : Int) > j
      · rw [if_pos hij, vcCount_stop (by omega)]
        omega
      · rw [if_neg hij]
        by_cases hc : cons word i = false
        · rw [if_pos hc]
          exact (ih i n).2.1 (by omega) hc
        · rw [if_neg hc]
          have hct : cons word i = true := by
            cases hcv : cons word i
            · exact absurd hcv hc
            · rfl
          rw [(ih (i + 1) n).1 (by omega), vcCount_cons_true hct]
    · -- vowel-skipping phase, the previous position i holds a vowel
      simp only [mStep]
      by_cases hij : ((i + 1 : Nat) : Int) > j
      · rw [if_pos hij, vcCount_stop (by omega)]
        omega
      · rw [if_neg hij]
        have hij' : ¬((i : Int) + 1 > j) := by omega
        by_cases hc1 : cons word (i + 1) = true
        · rw [if_pos hc1, (ih (i + 1) (n + 1)).2.2 (by omega) hc1, vcCount_step hij',
            if_pos ⟨hc, hc1⟩]
          omega
        · rw [if_neg hc1]
          have hc1f : cons word (i + 1) = false := by
            cases hcv : cons word (i + 1)
            · rfl
            · exact absurd hcv hc1
          rw [(ih (i + 1) n).2.1 (by omega) hc1f, vcCount_step hij',
            if_neg (by simp [hc1f])]
          omega
    · -- trailing consonant-skipping phase, the previous position i holds a consonant
      simp only [mStep]
      by_cases hij : ((i + 1 : Nat) : Int) > j
      · rw [if_pos hij, vcCount_stop (by omega)]
        omega
      · rw [if_neg hij]
        have hij' : ¬((i : Int) + 1 > j) := by omega
        by_cases hc1 : cons word (i + 1) = false
        · rw [if_pos hc1, (ih (i + 1) n).2.1 (by omega) hc1, vcCount_step hij',
            if_neg (by simp [hc])]
          omega
        · rw [if_neg hc1]
          have hc1t : cons word (i + 1) = true := by
            cases hcv : cons word (i + 1)
            · exact absurd hcv hc1
            · rfl
          rw [(ih (i + 1) n).2.2 (by omega) hc1t, vcCount_step hij',
            if_neg (by simp [hc])]
          omega

theorem mPorter_eq_vcCount (word : List Char) (j : Int) :
    mPorter word j = vcCount word j 0 := by
  have h := (mStep_spec word j ((j + 1).toNat + 1) 0 0).1 (by omega)
  simpa [mPorter] using h

theorem length_cv_sequence (s : List Char) : (cv_sequence s).length = s.length := by
  simp [cv_sequence]

theorem getElem_cv_sequence (s : List Char) (i : Nat) (h : i < (cv_sequence s).length) :
    (cv_sequence s)[i] = if cons s i then 'c' else 'v' := by
  simp [cv_sequence]

theorem countVC_cons₂ (a b : Char) (l : List Char) :
    countVC (a :: b :: l) = (if a = 'v' ∧ b = 'c' then 1 else 0) + countVC (b :: l) := rfl

theorem countVC_drop (s : List Char) :
    ∀ (fuel i : Nat), s.length - i ≤ fuel →
      countVC ((cv_sequence s).drop i) = vcCount s ((s.length : Int) - 1) i := by
  intro fuel
  induction fuel with
  | zero =>
    intro i h
    rw [List.drop_eq_nil_of_le (by rw [length_cv_sequence]; omega), vcCount_stop (by omega)]
    rfl
  | succ fuel ih =>
    intro i h
    by_cases hi : s.length ≤ i
    · rw [List.drop_eq_nil_of_le (by rw [length_cv_sequence]; omega), vcCount_stop (by omega)]
      rfl
    · push_neg at hi
      by_cases hlast : i + 1 = s.length
      · rw [List.drop_eq_getElem_cons (by rw [length_cv_sequence]; omega),
          List.drop_eq_nil_of_le (by rw [length_cv_sequence]; omega),
          vcCount_stop (by omega)]
        rfl
      · have hi1 : i + 1 < s.length := by omega
        rw [List.drop_eq_getElem_cons (by rw [length_cv_sequence]; omega),
          List.drop_eq_getElem_cons (n := i + 1) (by rw [length_cv_sequence]; omega),
          countVC_cons₂,
          ← List.drop_eq_getElem_cons (n := i + 1) (by rw [length_cv_sequence]; omega),
          ih (i + 1) (by omega), vcCount_step (i := i) (by omega)]
        congr 1
        rw [getElem_cv_sequence, getElem_cv_sequence]
        cases hc : cons s i <;> cases hc1 : cons s (i + 1) <;> simp

theorem measure_eq_vcCount (s : List Char) :
    measure s = vcCount s ((s.length : Int) - 1) 0 := by
  have h := countVC_drop s s.length 0 (by omega)
  simpa [measure] using h

theorem vcCount_take (word : List Char) (m : Nat) (j : Int) (hj : j < (m : Int)) :
    ∀ (fuel i : Nat), (j + 1 - i).toNat ≤ fuel →
      vcCount (word.take m) j i = vcCount word j i := by
  intro fuel
  induction fuel with
  | zero =>
    intro i h
    rw [vcCount_stop (by omega), vcCount_stop (by omega)]
  | succ fuel ih =>
    intro i h
    by_cases hij : (i : Int) + 1 > j
    · rw [vcCount_stop hij, vcCount_stop hij]
    · rw [vcCount_step hij, vcCount_step hij,
        cons_take word m i (by omega), cons_take word m (i + 1) (by omega),
        ih (i + 1) (by omega)]

/-- The central bridge: `_m(word, j)` with `j < len(word)` is `_measure` of
the prefix `word[0..j]`. -/
theorem mPorter_eq_measure_take (word : List Char) (j : Int) (hj : j < (word.length : Int)) :
    mPorter word j = measure (word.take (j + 1).toNat) := by
  rw [mPorter_eq_vcCount]
  by_cases h0 : j < 0
  · rw [vcCount_stop (by omega)]
    have h1 : (j + 1).toNat = 0 := by omega
    rw [h1]
    rfl
  · push_neg at h0
    rw [measure_eq_vcCount]
    have hlen : (word.take (j + 1).toNat).length = (j + 1).toNat := by
      rw [List.length_take]; omega
    rw [hlen]
    have hcast : (((j + 1).toNat : Nat) : Int) - 1 = j := by omega
    rw [hcast]
    exact (vcCount_take word (j + 1).toNat j (by omega) (j + 1 - 0).toNat 0 (by omega)).symm

theorem mPorter_eq_measure (s : List Char) :
    mPorter s ((s.length : Int) - 1) = measure s := by
  rw [mPorter_eq_measure_take s _ (by omega)]
  congr 1
  have h1 : ((s.length : Int) - 1 + 1).toNat = s.length := by omega
  rw [h1, List.take_length]

theorem vcCount_concat_vowel (p : List Char) (c : Char) (hc : c ∈ vowels) :
    ∀ (fuel i : Nat), p.length - i ≤ fuel →
      vcCount (p ++ [c]) (p.length : Int) i = vcCount p ((p.length : Int) - 1) i := by
  intro fuel
  induction fuel with
  | zero =>
    intro i h
    rw [vcCount_stop (by omega), vcCount_stop (by omega)]
  | succ fuel ih =>
    intro i h
    by_cases hi : p.length ≤ i
    · rw [vcCount_stop (by omega), vcCount_stop (by omega)]
    · push_neg at hi
      by_cases hlast : i + 1 = p.length
      · rw [vcCount_step (j := (p.length : Int)) (by omega),
          vcCount_stop (j := (p.length : Int) - 1) (by omega)]
        have hcv : cons (p ++ [c]) (i + 1) = false := by
          apply cons_of_vowel
          rw [hlast, getD_append_right (by omega)]
          simpa using hc
        rw [if_neg (by simp [hcv]), vcCount_stop (j := (p.length : Int)) (by omega)]
      · have hi1 : i + 1 < p.length := by omega
        rw [vcCount_step (j := (p.length : Int)) (by omega),
          vcCount_step (j := (p.length : Int) - 1) (by omega),
          cons_append (p := p) [c] (by omega), cons_append (p := p) (i := i + 1) [c] (by omega),
          ih (i + 1) (by omega)]

/-- Appending a vowel (such as a final e) does not change the measure. -/
theorem measure_concat_vowel (p : List Char) (c : Char) (hc : c ∈ vowels) :
    measure (p ++ [c]) = measure p := by
  rw [measure_eq_vcCount, measure_eq_vcCount]
  have hl : (((p ++ [c]).length : Nat) : Int) - 1 = (p.length : Int) := by simp
  rw [hl]
  exact vcCount_concat_vowel p c hc p.length 0 (by omega)

/-! ### The fuel passed to step 2 is immaterial once it reaches the length -/

theorem step2F_nil (fuel : Nat) : step2F fuel [] = [] := by
  cases fuel with
  | zero => rfl
  | succ f => rfl

theorem step2F_congr :
    ∀ (f1 f2 : Nat) (w : List Char), w.length ≤ f1 → w.length ≤ f2 →
      step2F f1 w = step2F f2 w := by
  intro f1
  induction f1 with
  | zero =>
    intro f2 w h1 _
    have hw : w = [] := List.eq_nil_of_length_eq_zero (by omega)
    subst hw
    rw [step2F_nil, step2F_nil]
  | succ f1 ih =>
    intro f2 w h1 h2
    cases f2 with
    | zero =>
      have hw : w = [] := List.eq_nil_of_length_eq_zero (by omega)
      subst hw
      rw [step2F_nil, step2F_nil]
    | succ f2 =>
      simp only [step2F]
      refine if_congr Iff.rfl rfl ?_
      refine if_congr Iff.rfl rfl ?_
      refine if_congr Iff.rfl rfl ?_
      refine if_congr Iff.rfl rfl ?_
      refine if_congr Iff.rfl ?_ rfl
      refine if_congr Iff.rfl rfl ?_
      refine if_congr Iff.rfl ?_ rfl
      refine if_congr Iff.rfl ?_ rfl
      exact ih f2 (w.take (w.length - 2)) (by simp [List.length_take]; omega)
        (by simp [List.length_take]; omega)

/-! ### The claims -/

/-- C10: the two measure implementations of the code agree: for every
non-empty string `s`, `_measure(s) = _m(s, len(s) - 1)`. -/
theorem claim10_measures_agree (s : List Char) (h : s ≠ []) :
    measure s = mPorter s ((s.length : Int) - 1) :=
  (mPorter_eq_measure s).symm

theorem claim10_measures_agree_witness :
    toL "oats" ≠ [] ∧
    measure (toL "oats") = mPorter (toL "oats") (((toL "oats").length : Int) - 1) :=
  ⟨by decide, claim10_measures_agree (toL "oats") (by decide)⟩

/-- C2: every surface form of the irregular-form table is mapped straight to
its paradigm, bypassing the rule pipeline entirely (the result is the stored
paradigm whatever the pipeline would produce), so at most one of irregular
lookup and the step pipeline determines the output. -/
theorem claim2_irregular_forms (w p : List Char) (h : pool.lookup w = some p) :
    stem w = p := by
  unfold stem
  rw [h]

theorem claim2_irregular_forms_witness :
    stem (toL "skies") = toL "sky" ∧ stem (toL "dying") = toL "die" ∧
    stem (toL "lying") = toL "lie" ∧ stem (toL "tying") = toL "tie" ∧
    stem (toL "news") = toL "news" ∧ stem (toL "proceed") = toL "proceed" :=
  ⟨claim2_irregular_forms _ _ (by decide), claim2_irregular_forms _ _ (by decide),
   claim2_irregular_forms _ _ (by decide), claim2_irregular_forms _ _ (by decide),
   claim2_irregular_forms _ _ (by decide), claim2_irregular_forms _ _ (by decide)⟩

/-- C3 (amended): an input of length at most 2 that is not a key of the
irregular-form table is returned unchanged — the original word as given,
not its lowercase folding; the step pipeline is never entered. -/
theorem claim3_short_words (w : List Char) (h : pool.lookup w = none) (h2 : w.length ≤ 2) :
    stem w = w := by
  unfold stem
  rw [h]
  simp [h2]

theorem claim3_short_words_witness :
    stem (toL "is") = toL "is" ∧ stem (toL "a") = toL "a" ∧ stem (toL "") = toL "" :=
  ⟨claim3_short_words _ (by decide) (by decide),
   claim3_short_words _ (by decide) (by decide),
   claim3_short_words _ (by decide) (by decide)⟩

/-- C3 counterexample: the claim says the lowercased word is returned, but
`stem` returns the word as given: `stem("IS") == "IS"`, which differs from
`"IS".lower() == "is"`. -/
theorem claim3_counterexample :
    stem (toL "IS") = toL "IS" ∧ lower (toL "IS") = toL "is" ∧
    stem (toL "IS") ≠ lower (toL "IS") :=
  ⟨by decide, by decide, by decide⟩

/-- C4 (code bug): step 1b's second pass collapses any doubled final letter
not in {l, s, z}, without checking that it is a doubled consonant as the
rule `(*d and not (*L or *S or *Z))` quoted in its own docstring (and the
`_doublec` helper) requires: `"fleeing"`, whose post-strip stem `"flee"`
ends in a doubled vowel (`_doublec("flee")` is false), is nonetheless
collapsed to `"fle"`. -/
theorem claim4_double_letter_eval :
    step1b (toL "fleeing") = toL "fle" ∧
    doublec (toL "flee") = false ∧
    stem (toL "fleeing") = toL "fle" :=
  ⟨by decide, by decide, by decide⟩

/-- C1 counterexample: the pipeline yields `stem("relational") = "relat"`,
not `"relate"` as the claim states (step 5a strips the final e because the
measure of "relat" is 2 > 1). -/
theorem claim1_counterexample :
    stem (toL "relational") = toL "relat" ∧ toL "relat" ≠ toL "relate" :=
  ⟨by decide, by decide⟩

/-- C1 (amended): the full-pipeline outputs on the claim's vocabulary.  The
words whose claimed stems still carry a final suffix that steps 4 and 5a
remove come out shorter: relational ↦ relat, conditional ↦ condit,
electrical ↦ electr, conflated ↦ conflat, troubled ↦ troubl; the others are
as the claim states: triplicate ↦ triplic, hopefulness ↦ hope,
adjustable ↦ adjust, controll ↦ control, roll ↦ roll, caress ↦ caress
(re-stemming a stemmed form is a no-op), hopping ↦ hop, falling ↦ fall. -/
theorem claim1_vocabulary :
    stem (toL "relational") = toL "relat" ∧
    stem (toL "conditional") = toL "condit" ∧
    stem (toL "triplicate") = toL "triplic" ∧
    stem (toL "electrical") = toL "electr" ∧
    stem (toL "hopefulness") = toL "hope" ∧
    stem (toL "adjustable") = toL "adjust" ∧
    stem (toL "controll") = toL "control" ∧
    stem (toL "roll") = toL "roll" ∧
    stem (toL "caress") = toL "caress" ∧
    stem (toL "conflated") = toL "conflat" ∧
    stem (toL "troubled") = toL "troubl" ∧
    stem (toL "hopping") = toL "hop" ∧
    stem (toL "falling") = toL "fall" :=
  ⟨by decide, by decide, by decide, by decide, by decide, by decide, by decide,
   by decide, by decide, by decide, by decide, by decide, by decide⟩

/-- C9: the stemmer is total.  Step 2's `alli` self-invocation is
well-founded: re-invocation is on a word strictly shorter (by two), so any
fuel bound of at least the word's length computes the same fixed result as
`step2`, and the pipeline is a total function. -/
theorem claim9_termination :
    (∀ (fuel : Nat) (w : List Char), w.length ≤ fuel → step2F fuel w = step2 w) ∧
    (∀ w : List Char, endswith w (toL "alli") = true →
      (w.take (w.length - 2)).length < w.length) := by
  constructor
  · intro fuel w h
    exact step2F_congr fuel w.length w h le_rfl
  · intro w h
    have hl := endswith_length h
    have h4 : (toL "alli").length = 4 := by decide
    simp only [List.length_take]
    omega

theorem claim9_termination_witness :
    step2F 20 (toL "rationalli") = step2 (toL "rationalli") ∧
    ((toL "rationalli").take ((toL "rationalli").length - 2)).length <
      (toL "rationalli").length :=
  ⟨claim9_termination.1 20 (toL "rationalli") (by decide),
   claim9_termination.2 (toL "rationalli") (by decide)⟩

/-- Modelled from C5's amended wording: the code's extended CVC test on the
stem left after removing the final e — the §4.3 `ends_cvc` test for stems of
three or more characters, and additionally stems of exactly two characters
of the shape vowel–consonant (any consonant, including w/x/y). -/
def extendedEndsCVC (stem : List Char) : Bool :=
  if stem.length = 2 then !cons stem 0 && cons stem 1 else ends_cvc stem

/-- `_cvc(word, len(word) - 2)` with a final letter appended is the extended
CVC test of the stem. -/
theorem cvc_concat (p : List Char) (c : Char) :
    cvc (p ++ [c]) (p.length + 1 - 2) = extendedEndsCVC p := by
  by_cases h0 : p.length = 0
  · have hp : p = [] := List.eq_nil_of_length_eq_zero h0
    subst hp
    simp [cvc, extendedEndsCVC, ends_cvc]
  · by_cases h1 : p.length = 1
    · have hidx : p.length + 1 - 2 = 0 := by omega
      rw [hidx]
      simp [cvc, extendedEndsCVC, ends_cvc, h1]
    · by_cases h2 : p.length = 2
      · have hidx : p.length + 1 - 2 = 1 := by omega
        rw [hidx]
        unfold cvc
        rw [if_neg (by omega), if_pos rfl,
          cons_append (p := p) (i := 0) [c] (by omega),
          cons_append (p := p) (i := 1) [c] (by omega)]
        rw [extendedEndsCVC, if_pos h2]
      · have hlen : 3 ≤ p.length := by omega
        have hidx : p.length + 1 - 2 = p.length - 1 := by omega
        rw [hidx]
        unfold cvc
        rw [if_neg (by omega), if_neg (by omega)]
        have e1 : p.length - 1 - 1 = p.length - 2 := by omega
        have e2 : p.length - 1 - 2 = p.length - 3 := by omega
        rw [e1, e2,
          cons_append (p := p) (i := p.length - 1) [c] (by omega),
          cons_append (p := p) (i := p.length - 2) [c] (by omega),
          cons_append (p := p) (i := p.length - 3) [c] (by omega),
          getD_append_left (by omega)]
        rw [extendedEndsCVC, if_neg h2]
        unfold ends_cvc
        rw [decide_eq_true hlen]
        cases ha : cons p (p.length - 1) <;> cases hb : cons p (p.length - 2) <;>
          cases hc : cons p (p.length - 3) <;>
          by_cases hw : p.getD (p.length - 1) ' ' ∈ (['w', 'x', 'y'] : List Char) <;>
          simp_all [List.mem_cons]

/-- C5 (amended): a word reaching step 5a that ends in e has the e removed
iff the measure of the stem left after removal exceeds 1, or that measure is
1 and the stem fails the code's extended CVC test (`ends_cvc` for stems of
length ≥ 3, the vowel–consonant shape for stems of length exactly 2, never
satisfied by shorter stems); when removed, the result is that stem. -/
theorem claim5_step5a (w p : List Char) (hw : w = p ++ ['e']) :
    ((step5e w ≠ w) ↔
      (1 < measure p ∨ (measure p = 1 ∧ extendedEndsCVC p = false))) ∧
    (step5e w ≠ w → step5e w = p) := by
  subst hw
  have hlast : (p ++ ['e']).getLastD ' ' = 'e' := List.getLastD_concat _ _ _
  have hm : mPorter (p ++ ['e']) (((p ++ ['e']).length : Int) - 1) = measure p := by
    rw [mPorter_eq_measure, measure_concat_vowel p 'e' (by decide)]
  have hcvc : cvc (p ++ ['e']) ((p ++ ['e']).length - 2) = extendedEndsCVC p := by
    rw [show (p ++ ['e']).length = p.length + 1 by simp]
    exact cvc_concat p 'e'
  have hne : p ≠ p ++ ['e'] := fun hh => by simp at hh
  simp only [step5e]
  rw [hlast, if_pos rfl, hm, hcvc]
  by_cases hcond : 1 < measure p ∨ (measure p = 1 ∧ extendedEndsCVC p = false)
  · rw [if_pos hcond, List.dropLast_concat]
    exact ⟨⟨fun _ => hcond, fun _ => hne⟩, fun _ => rfl⟩
  · rw [if_neg hcond]
    exact ⟨⟨fun hh => absurd rfl hh, fun hh => absurd hh hcond⟩, fun hh => absurd rfl hh⟩

theorem claim5_step5a_witness :
    ((step5e (toL "cease") ≠ toL "cease") ↔
      (1 < measure (toL "ceas") ∨
        (measure (toL "ceas") = 1 ∧ extendedEndsCVC (toL "ceas") = false))) ∧
    (step5e (toL "cease") ≠ toL "cease" → step5e (toL "cease") = toL "ceas") :=
  claim5_step5a (toL "cease") (toL "ceas") (by decide)

/-- C5 counterexample: "ice" reaches step 5a ending in e, the measure of the
remaining stem "ic" is 1 and "ic" fails the §4.3 `ends_cvc` test (it is too
short), so the claim requires the e to be removed; the code's `_cvc`
`i == 1` extension keeps it: `step5e("ice") == "ice"`, and the full pipeline
gives `stem("ice") == "ice"`. -/
theorem claim5_counterexample :
    step5e (toL "ice") = toL "ice" ∧ measure (toL "ic") = 1 ∧
    ends_cvc (toL "ic") = false ∧ stem (toL "ice") = toL "ice" :=
  ⟨by decide, by decide, by decide, by decide⟩

/-! ### Evaluating the rule engine under suffix hypotheses -/

theorem rs_if_pos_none {w s r : List Char} (h : endswith w s = true) :
    replace_suffix_if w s r none = some (replace_suffix w s r) := by
  unfold replace_suffix_if
  rw [if_pos h]

theorem rs_if_pos_some {w s r : List Char} {c : List Char → Bool} (h : endswith w s = true)
    (hc : c (replace_suffix w s r) = true) :
    replace_suffix_if w s r (some c) = some (replace_suffix w s r) := by
  unfold replace_suffix_if
  rw [if_pos h]
  simp [hc]

theorem rs_if_neg {w s r : List Char} {c : Option (List Char → Bool)}
    (h : endswith w s = false) : replace_suffix_if w s r c = none := by
  unfold replace_suffix_if
  rw [h]
  simp

theorem rs_if_cond_neg {w s r : List Char} {c : List Char → Bool}
    (hc : c (replace_suffix w s r) = false) :
    replace_suffix_if w s r (some c) = none := by
  unfold replace_suffix_if
  by_cases h : endswith w s
  · rw [if_pos h]
    simp [hc]
  · simp [h]

theorem afpr_cons_some {w s r v : List Char} {c : Option (List Char → Bool)}
    {rest : List (List Char × List Char × Option (List Char → Bool))}
    (h : replace_suffix_if w s r c = some v) :
    apply_first_possible_rule w ((s, r, c) :: rest) = v := by
  unfold apply_first_possible_rule
  rw [h]

theorem afpr_cons_none {w s r : List Char} {c : Option (List Char → Bool)}
    {rest : List (List Char × List Char × Option (List Char → Bool))}
    (h : replace_suffix_if w s r c = none) :
    apply_first_possible_rule w ((s, r, c) :: rest) = apply_first_possible_rule w rest := by
  conv_lhs => rw [apply_first_possible_rule]
  rw [h]

/-- A matching suffix of `w` rules out matching any longer suffix whose
corresponding tail differs. -/
theorem endswith_conflict {w s t : List Char} (hs : endswith w s = true)
    (hlen : s.length ≤ t.length) (hne : t.drop (t.length - s.length) ≠ s) :
    endswith w t = false := by
  cases he : endswith w t
  · rfl
  · exact absurd (endswith_drop hs he hlen) hne

/-- A word that does not end with `t` does not end with any extension of
`t` either. -/
theorem endswith_false_of_tail {w s t : List Char} (hst : endswith s t = true)
    (hwt : endswith w t = false) : endswith w s = false := by
  cases he : endswith w s
  · rfl
  · rw [endswith_trans hst he] at hwt
    exact absurd hwt (by simp)

/-! ### C6: the step 1a rules, one by one -/

theorem step1a_sses (w : List Char) (h : endswith w (toL "sses") = true) :
    step1a w = w.take (w.length - 4) ++ toL "ss" := by
  rw [step1a, afpr_cons_some (rs_if_pos_none h), replace_suffix, if_neg (by decide)]
  rw [show (toL "sses").length = 4 from by decide]

theorem step1a_ies4 (w : List Char) (h : endswith w (toL "ies") = true) (h4 : w.length = 4) :
    step1a w = w.take (w.length - 3) ++ toL "ie" := by
  have hsses : endswith w (toL "sses") = false := endswith_conflict h (by decide) (by decide)
  rw [step1a, afpr_cons_none (rs_if_neg hsses),
    afpr_cons_some (rs_if_pos_some h (by simp [h4])),
    replace_suffix, if_neg (by decide)]
  rw [show (toL "ies").length = 3 from by decide]

theorem step1a_ies (w : List Char) (h : endswith w (toL "ies") = true) (h4 : w.length ≠ 4) :
    step1a w = w.take (w.length - 3) ++ toL "i" := by
  have hsses : endswith w (toL "sses") = false := endswith_conflict h (by decide) (by decide)
  rw [step1a, afpr_cons_none (rs_if_neg hsses),
    afpr_cons_none (rs_if_cond_neg (by simp [h4])),
    afpr_cons_some (rs_if_pos_none h),
    replace_suffix, if_neg (by decide)]
  rw [show (toL "ies").length = 3 from by decide]

theorem step1a_ss (w : List Char) (h : endswith w (toL "ss") = true)
    (hsses : endswith w (toL "sses") = false) : step1a w = w := by
  have hies : endswith w (toL "ies") = false := endswith_conflict h (by decide) (by decide)
  rw [step1a, afpr_cons_none (rs_if_neg hsses),
    afpr_cons_none (rs_if_neg hies), afpr_cons_none (rs_if_neg hies),
    afpr_cons_some (rs_if_pos_none h),
    replace_suffix, if_neg (by decide)]
  obtain ⟨p, rfl⟩ := endswith_iff.mp h
  have hl2 : (toL "ss").length = 2 := by decide
  rw [hl2, show (p ++ toL "ss").length - 2 = p.length from by simp [hl2], List.take_left]

theorem step1a_s (w : List Char) (h : endswith w (toL "s") = true)
    (hsses : endswith w (toL "sses") = false) (hss : endswith w (toL "ss") = false)
    (hies : endswith w (toL "ies") = false) :
    step1a w = w.take (w.length - 1) := by
  rw [step1a, afpr_cons_none (rs_if_neg hsses),
    afpr_cons_none (rs_if_neg hies), afpr_cons_none (rs_if_neg hies),
    afpr_cons_none (rs_if_neg hss),
    afpr_cons_some (rs_if_pos_none h),
    replace_suffix, if_neg (by decide)]
  rw [show (toL "s").length = 1 from by decide, List.append_nil]

theorem step1a_nos (w : List Char) (h : endswith w (toL "s") = false) : step1a w = w := by
  have hsses : endswith w (toL "sses") = false := endswith_false_of_tail (by decide) h
  have hies : endswith w (toL "ies") = false := endswith_false_of_tail (by decide) h
  have hss : endswith w (toL "ss") = false := endswith_false_of_tail (by decide) h
  rw [step1a, afpr_cons_none (rs_if_neg hsses),
    afpr_cons_none (rs_if_neg hies), afpr_cons_none (rs_if_neg hies),
    afpr_cons_none (rs_if_neg hss), afpr_cons_none (rs_if_neg h)]
  rfl

/-- C6: step 1a applies the first matching rule of the ordered list
"sses"→"ss"; "ies"→"ie" when the word entering the step has length exactly
4, else "ies"→"i"; "ss"→"ss" (no-op); "s"→"" unconditionally; a word
matching no rule (one not ending in s) is unchanged.  Consequently
stem("caresses") == "caress", stem("ponies") == "poni",
stem("ties") == "tie", stem("cats") == "cat". -/
theorem claim6_step1a :
    (∀ w : List Char, endswith w (toL "sses") = true →
      step1a w = w.take (w.length - 4) ++ toL "ss") ∧
    (∀ w : List Char, endswith w (toL "ies") = true → w.length = 4 →
      step1a w = w.take (w.length - 3) ++ toL "ie") ∧
    (∀ w : List Char, endswith w (toL "ies") = true → w.length ≠ 4 →
      step1a w = w.take (w.length - 3) ++ toL "i") ∧
    (∀ w : List Char, endswith w (toL "ss") = true → endswith w (toL "sses") = false →
      step1a w = w) ∧
    (∀ w : List Char, endswith w (toL "s") = true → endswith w (toL "sses") = false →
      endswith w (toL "ss") = false → endswith w (toL "ies") = false →
      step1a w = w.take (w.length - 1)) ∧
    (∀ w : List Char, endswith w (toL "s") = false → step1a w = w) ∧
    stem (toL "caresses") = toL "caress" ∧ stem (toL "ponies") = toL "poni" ∧
    stem (toL "ties") = toL "tie" ∧ stem (toL "cats") = toL "cat" :=
  ⟨step1a_sses, step1a_ies4, step1a_ies, step1a_ss, step1a_s, step1a_nos,
   by decide, by decide, by decide, by decide⟩

theorem claim6_step1a_witness :
    step1a (toL "caresses") =
      (toL "caresses").take ((toL "caresses").length - 4) ++ toL "ss" :=
  claim6_step1a.1 (toL "caresses") (by decide)

/-! ### C8: no step lengthens the word -/

theorem replace_suffix_if_some {w s r v : List Char} {c : Option (List Char → Bool)}
    (h : replace_suffix_if w s r c = some v) :
    endswith w s = true ∧ v = replace_suffix w s r := by
  cases c with
  | none =>
    simp only [replace_suffix_if] at h
    by_cases he : endswith w s
    · rw [if_pos he] at h
      exact ⟨he, by simpa using h.symm⟩
    · rw [if_neg he] at h
      cases h
  | some cond =>
    simp only [replace_suffix_if] at h
    by_cases he : endswith w s
    · rw [if_pos he] at h
      by_cases hc : cond (replace_suffix w s r) = true
      · rw [if_pos hc] at h
        exact ⟨he, by simpa using h.symm⟩
      · rw [if_neg hc] at h
        cases h
    · rw [if_neg he] at h
      cases h

theorem afpr_cases (w : List Char) :
    ∀ rules, apply_first_possible_rule w rules = w ∨
      ∃ r ∈ rules, endswith w r.1 = true ∧
        apply_first_possible_rule w rules = replace_suffix w r.1 r.2.1 := by
  intro rules
  induction rules with
  | nil => exact Or.inl rfl
  | cons rule rest ih =>
    obtain ⟨s, r, c⟩ := rule
    cases hr : replace_suffix_if w s r c with
    | none =>
      rw [afpr_cons_none hr]
      rcases ih with hw | ⟨r', hm, he, hv⟩
      · exact Or.inl hw
      · exact Or.inr ⟨r', List.mem_cons_of_mem _ hm, he, hv⟩
    | some v =>
      rw [afpr_cons_some hr]
      have hsome := replace_suffix_if_some hr
      exact Or.inr ⟨(s, r, c), List.mem_cons_self _ _, hsome.1, hsome.2⟩

theorem replace_suffix_length_le {w s r : List Char} (h : endswith w s = true)
    (hr : r.length ≤ s.length) : (replace_suffix w s r).length ≤ w.length := by
  have hs := endswith_length h
  unfold replace_suffix
  by_cases h0 : s.length = 0
  · rw [if_pos h0]
    simp
    omega
  · rw [if_neg h0]
    simp [List.length_take]
    omega

theorem replace_suffix_length_le_succ {w s r : List Char} (h : endswith w s = true)
    (hr : r.length ≤ s.length + 1) : (replace_suffix w s r).length ≤ w.length + 1 := by
  have hs := endswith_length h
  unfold replace_suffix
  by_cases h0 : s.length = 0
  · rw [if_pos h0]
    simp
    omega
  · rw [if_neg h0]
    simp [List.length_take]
    omega

theorem take_length_le {w : List Char} {k : Nat} : (w.take k).length ≤ w.length := by
  simp [List.length_take]

theorem take_append_length_le {w r : List Char} {k : Nat} (hk : r.length ≤ k)
    (hkw : k ≤ w.length) : (w.take (w.length - k) ++ r).length ≤ w.length := by
  simp [List.length_take]
  omega

theorem endswith_length_ge {w s : List Char} {k : Nat} (h : endswith w s = true)
    (hk : s.length = k) : k ≤ w.length := hk ▸ endswith_length h

theorem step1a_length (w : List Char) : (step1a w).length ≤ w.length := by
  rw [step1a]
  rcases afpr_cases w _ with hw | ⟨r, hm, he, hv⟩
  · rw [hw]
  · simp only [List.mem_cons, List.not_mem_nil, or_false] at hm
    rcases hm with rfl | rfl | rfl | rfl | rfl <;> rw [hv] <;>
      refine replace_suffix_length_le he ?_ <;> dsimp only <;> decide

theorem step1b_second_pass_le (inter : List Char) (fl : Char) :
    (apply_first_possible_rule inter [
      (toL "at", toL "ate", none),
      (toL "bl", toL "ble", none),
      (toL "iz", toL "ize", none),
      ([fl, fl], [fl], some fun _ => decide (fl ∉ (['l', 's', 'z'] : List Char))),
      ([], toL "e", some fun stem => decide (measure stem = 1) && ends_cvc stem)]).length
      ≤ inter.length + 1 := by
  rcases afpr_cases inter _ with hw | ⟨r, hm, he, hv⟩
  · rw [hw]
    omega
  · simp only [List.mem_cons, List.not_mem_nil, or_false] at hm
    rcases hm with rfl | rfl | rfl | rfl | rfl <;> rw [hv] <;>
      refine replace_suffix_length_le_succ he ?_ <;> dsimp only <;>
      first | decide | simp

theorem orElse_eq_some {o : Option (List Char)} {f : Unit → Option (List Char)}
    {v : List Char} (h : o.orElse f = some v) :
    o = some v ∨ (o = none ∧ f () = some v) := by
  cases o with
  | none =>
    right
    exact ⟨rfl, by simpa [Option.orElse] using h⟩
  | some x =>
    left
    simpa [Option.orElse] using h

theorem step1b_length (w : List Char) : (step1b w).length ≤ w.length := by
  rw [step1b]
  cases h1 : replace_suffix_if w (toL "ied") (toL "ie") (some fun _ => w.length == 4) with
  | some v =>
    obtain ⟨he, rfl⟩ := replace_suffix_if_some h1
    exact replace_suffix_length_le he (by decide)
  | none =>
  cases h2 : replace_suffix_if w (toL "eed") (toL "ee")
      (some fun stem => decide (0 < measure stem)) with
  | some v =>
    obtain ⟨he, rfl⟩ := replace_suffix_if_some h2
    exact replace_suffix_length_le he (by decide)
  | none =>
  cases h3 : (replace_suffix_if w (toL "ed") [] (some vowelinstem)).orElse
      (fun _ => replace_suffix_if w (toL "ing") [] (some vowelinstem)) with
  | none => exact le_refl _
  | some inter =>
    have hpass := step1b_second_pass_le inter (inter.getLastD ' ')
    rcases orElse_eq_some h3 with hed | ⟨-, hing⟩
    · obtain ⟨he, hv⟩ := replace_suffix_if_some hed
      have hlen : inter.length + 1 ≤ w.length := by
        have h2w := endswith_length_ge he (k := 2) (by decide)
        rw [hv]
        unfold replace_suffix
        rw [if_neg (by decide)]
        simp [List.length_take]
        rw [show (toL "ed").length = 2 from by decide]
        omega
      exact le_trans hpass hlen
    · obtain ⟨he, hv⟩ := replace_suffix_if_some hing
      have hlen : inter.length + 1 ≤ w.length := by
        have h3w := endswith_length_ge he (k := 3) (by decide)
        rw [hv]
        unfold replace_suffix
        rw [if_neg (by decide)]
        simp [List.length_take]
        rw [show (toL "ing").length = 3 from by decide]
        omega
      exact le_trans hpass hlen

theorem step1c_length (w : List Char) : (step1c w).length ≤ w.length := by
  unfold step1c
  split_ifs with h
  · simp only [List.length_append, List.length_dropLast, List.length_cons,
      List.length_nil]
    omega
  · exact le_refl _

/-- Length form of branch reasoning: an `if` is bounded when both branches
are, the taken branch knowing its condition. -/
theorem ite_len {c : Prop} [Decidable c] {x y w : List Char}
    (hx : c → x.length ≤ w.length) (hy : y.length ≤ w.length) :
    (if c then x else y).length ≤ w.length := by
  by_cases h : c
  · rw [if_pos h]
    exact hx h
  · rw [if_neg h]
    exact hy

theorem dropLast_length_le (w : List Char) : w.dropLast.length ≤ w.length := by
  simp [List.length_dropLast]

theorem step2F_length : ∀ (fuel : Nat) (w : List Char), (step2F fuel w).length ≤ w.length := by
  intro fuel
  induction fuel with
  | zero =>
    intro w
    exact le_refl _
  | succ fuel ih =>
    intro w
    simp only [step2F]
    repeat'
      first
        | refine ite_len (fun h => ?_) ?_
        | exact le_refl _
        | exact take_length_le
        | exact le_trans (ih _) take_length_le
        | exact take_append_length_le (by decide) (endswith_length_ge ‹_› (by decide))

theorem step2_length (w : List Char) : (step2 w).length ≤ w.length :=
  step2F_length w.length w

theorem step3_length (w : List Char) : (step3 w).length ≤ w.length := by
  simp only [step3]
  repeat'
    first
      | refine ite_len (fun h => ?_) ?_
      | exact le_refl _
      | exact take_length_le

theorem step4_length (w : List Char) : (step4 w).length ≤ w.length := by
  simp only [step4]
  repeat'
    first
      | refine ite_len (fun h => ?_) ?_
      | exact le_refl _
      | exact take_length_le

theorem step5e_length (w : List Char) : (step5e w).length ≤ w.length := by
  simp only [step5e]
  repeat'
    first
      | refine ite_len (fun h => ?_) ?_
      | exact le_refl _
      | exact dropLast_length_le _

theorem step5ll_length (w : List Char) : (step5ll w).length ≤ w.length := by
  simp only [step5ll]
  repeat'
    first
      | refine ite_len (fun h => ?_) ?_
      | exact le_refl _
      | exact dropLast_length_le _

theorem step5_length (w : List Char) : (step5 w).length ≤ w.length :=
  le_trans (step5ll_length _) (step5e_length _)

theorem pool_lookup_length {w p : List Char} (hp : pool.lookup w = some p) :
    p.length ≤ w.length := by
  have hmem : (w, p) ∈ pool := by
    obtain ⟨l1, l2, hl, -⟩ := List.lookup_eq_some_iff.mp hp
    rw [hl]
    simp
  have hall : ∀ q ∈ pool, (Prod.snd q).length ≤ (Prod.fst q).length := by decide
  exact hall _ hmem

/-! ### C7: step 4 against the claim's rule table -/

/-- Modelled from C7's wording: the ordered step-4 table, each suffix with
its extra condition on the remaining stem ("ion" also requires the stem to
end in s or t). -/
def step4Rules : List (List Char × (List Char → Bool)) := [
  (toL "al", fun _ => true), (toL "ance", fun _ => true), (toL "ence", fun _ => true),
  (toL "er", fun _ => true), (toL "ic", fun _ => true), (toL "able", fun _ => true),
  (toL "ible", fun _ => true), (toL "ant", fun _ => true), (toL "ement", fun _ => true),
  (toL "ment", fun _ => true), (toL "ent", fun _ => true),
  (toL "ion", fun stem => decide (stem.getLastD ' ' = 's' ∨ stem.getLastD ' ' = 't')),
  (toL "ou", fun _ => true), (toL "ism", fun _ => true), (toL "ate", fun _ => true),
  (toL "iti", fun _ => true), (toL "ous", fun _ => true), (toL "ive", fun _ => true),
  (toL "ize", fun _ => true)]

/-- Modelled from C7's wording: the first suffix of the table that matches
decides; it is stripped to empty exactly when the measure of the remaining
stem exceeds 1 (and, for "ion", the stem ends in s or t); a word matching no
rule, or whose condition fails, passes through unchanged. -/
def step4Claim (word : List Char) : List Char :=
  match step4Rules.find? (fun r => endswith word r.1) with
  | none => word
  | some r =>
    if 1 < measure (word.take (word.length - r.1.length)) ∧
        r.2 (word.take (word.length - r.1.length)) = true
    then word.take (word.length - r.1.length) else word

theorem step4Claim_found {w s : List Char} {extra : List Char → Bool}
    (hfind : step4Rules.find? (fun r => endswith w r.1) = some (s, extra)) :
    step4Claim w =
      if 1 < measure (w.take (w.length - s.length)) ∧
          extra (w.take (w.length - s.length)) = true
      then w.take (w.length - s.length) else w := by
  unfold step4Claim
  rw [hfind]

theorem step4Claim_not_found {w : List Char}
    (hfind : step4Rules.find? (fun r => endswith w r.1) = none) :
    step4Claim w = w := by
  unfold step4Claim
  rw [hfind]

/-- The mirror image of `endswith_conflict`: a matching suffix rules out any
shorter suffix whose tail position differs. -/
theorem endswith_conflict₂ {w s t : List Char} (ht : endswith w t = true)
    (hlen : s.length ≤ t.length) (hne : t.drop (t.length - s.length) ≠ s) :
    endswith w s = false := by
  cases he : endswith w s
  · rfl
  · exact absurd (endswith_drop he ht hlen) hne

theorem getD_penult {p s : List Char} {c : Char} (h2 : 2 ≤ s.length)
    (hc : s.getD (s.length - 2) ' ' = c) :
    (p ++ s).getD ((p ++ s).length - 2) ' ' = c := by
  rw [List.length_append,
    show p.length + s.length - 2 = p.length + (s.length - 2) from by omega,
    getD_append_right (by omega),
    show p.length + (s.length - 2) - p.length = s.length - 2 from by omega, hc]

theorem endswith_getD_penult {w s : List Char} {c : Char} (h : endswith w s = true)
    (h2 : 2 ≤ s.length) (hc : s.getD (s.length - 2) ' ' = c) :
    w.getD (w.length - 2) ' ' = c := by
  obtain ⟨p, rfl⟩ := endswith_iff.mp h
  exact getD_penult h2 hc

/-- The step-4 conditions `_m(word, len(word) - (k + 1)) > 1` test the
measure of the stem left after stripping the last k characters. -/
theorem mPorter_strip (w : List Char) (j : Int) (k : Nat)
    (hj : j = (w.length : Int) - (k + 1)) (hkw : k ≤ w.length) (h1 : 1 ≤ k) :
    mPorter w j = measure (w.take (w.length - k)) := by
  subst hj
  rw [mPorter_eq_measure_take _ _ (by omega)]
  have ht : ((w.length : Int) - (k + 1) + 1).toNat = w.length - k := by omega
  rw [ht]

theorem bfalse {b : Bool} (h : ¬(b = true)) : b = false := by
  cases b
  · rfl
  · exact absurd rfl h

theorem step4_both_al (w : List Char) (h : endswith w (toL "al") = true) :
    step4 w = step4Claim w := by
  have hch : w.getD (w.length - 2) ' ' = 'a' := endswith_getD_penult h (by decide) (by decide)
  have hlw : 2 ≤ w.length := endswith_length_ge h (by decide)
  have hb : mPorter w ((w.length : Int) - 3) = measure (w.take (w.length - 2)) :=
    mPorter_strip w _ 2 (by omega) (by omega) (by omega)
  have hfind : step4Rules.find? (fun r => endswith w r.1) = some (toL "al", fun _ => true) := by
    unfold step4Rules
    exact List.find?_cons_of_pos _ (by simpa using h)
  rw [step4Claim_found hfind]
  simp only [step4]
  rw [if_neg (by omega), hch]
  simp only [reduceIte]
  rw [if_pos h]
  rw [hb, show (toL "al").length = 2 from by decide]
  simp only [eq_self_iff_true, and_true]

theorem step4_both_ance (w : List Char) (h : endswith w (toL "ance") = true) :
    step4 w = step4Claim w := by
  have hfal : endswith w (toL "al") = false := endswith_conflict₂ h (by decide) (by decide)
  have hch : w.getD (w.length - 2) ' ' = 'c' := endswith_getD_penult h (by decide) (by decide)
  have hlw : 4 ≤ w.length := endswith_length_ge h (by decide)
  have hb : mPorter w ((w.length : Int) - 5) = measure (w.take (w.length - 4)) :=
    mPorter_strip w _ 4 (by omega) (by omega) (by omega)
  have hfind : step4Rules.find? (fun r => endswith w r.1) = some (toL "ance", fun _ => true) := by
    unfold step4Rules
    rw [List.find?_cons_of_neg _ (by simpa using hfal)]
    exact List.find?_cons_of_pos _ (by simpa using h)
  rw [step4Claim_found hfind]
  simp only [step4]
  rw [if_neg (by omega), hch]
  rw [if_neg (show ¬(('c' : Char) = 'a') from by decide)]
  simp only [reduceIte]
  rw [if_pos h]
  rw [hb, show (toL "ance").length = 4 from by decide]
  simp only [eq_self_iff_true, and_true]

theorem step4_both_ence (w : List Char) (h : endswith w (toL "ence") = true) :
    step4 w = step4Claim w := by
  have hfal : endswith w (toL "al") = false := endswith_conflict₂ h (by decide) (by decide)
  have hfance : endswith w (toL "ance") = false := endswith_conflict₂ h (by decide) (by decide)
  have hch : w.getD (w.length - 2) ' ' = 'c' := endswith_getD_penult h (by decide) (by decide)
  have hlw : 4 ≤ w.length := endswith_length_ge h (by decide)
  have hb : mPorter w ((w.length : Int) - 5) = measure (w.take (w.length - 4)) :=
    mPorter_strip w _ 4 (by omega) (by omega) (by omega)
  have hfind : step4Rules.find? (fun r => endswith w r.1) = some (toL "ence", fun _ => true) := by
    unfold step4Rules
    rw [List.find?_cons_of_neg _ (by simpa using hfal),
      List.find?_cons_of_neg _ (by simpa using hfance)]
    exact List.find?_cons_of_pos _ (by simpa using h)
  rw [step4Claim_found hfind]
  simp only [step4]
  rw [if_neg (by omega), hch]
  rw [if_neg (show ¬(('c' : Char) = 'a') from by decide)]
  simp only [reduceIte]
  rw [if_neg (by simp [hfance]), if_pos h]
  rw [hb, show (toL "ence").length = 4 from by decide]
  simp only [eq_self_iff_true, and_true]

theorem step4_both_er (w : List Char) (h : endswith w (toL "er") = true) :
    step4 w = step4Claim w := by
  have hfal : endswith w (toL "al") = false := endswith_conflict₂ h (by decide) (by decide)
  have hfance : endswith w (toL "ance") = false := endswith_conflict h (by decide) (by decide)
  have hfence : endswith w (toL "ence") = false := endswith_conflict h (by decide) (by decide)
  have hch : w.getD (w.length - 2) ' ' = 'e' := endswith_getD_penult h (by decide) (by decide)
  have hlw : 2 ≤ w.length := endswith_length_ge h (by decide)
  have hb : mPorter w ((w.length : Int) - 3) = measure (w.take (w.length - 2)) :=
    mPorter_strip w _ 2 (by omega) (by omega) (by omega)
  have hfind : step4Rules.find? (fun r => endswith w r.1) = some (toL "er", fun _ => true) := by
    unfold step4Rules
    rw [List.find?_cons_of_neg _ (by simpa using hfal),
      List.find?_cons_of_neg _ (by simpa using hfance),
      List.find?_cons_of_neg _ (by simpa using hfence)]
    exact List.find?_cons_of_pos _ (by simpa using h)
  rw [step4Claim_found hfind]
  simp only [step4]
  rw [if_neg (by omega), hch]
  rw [if_neg (show ¬(('e' : Char) = 'a') from by decide)]
  rw [if_neg (show ¬(('e' : Char) = 'c') from by decide)]
  simp only [reduceIte]
  rw [if_pos h]
  rw [hb, show (toL "er").length = 2 from by decide]
  simp only [eq_self_iff_true, and_true]

theorem step4_both_ic (w : List Char) (h : endswith w (toL "ic") = true) :
    step4 w = step4Claim w := by
  have hfal : endswith w (toL "al") = false := endswith_conflict₂ h (by decide) (by decide)
  have hfance : endswith w (toL "ance") = false := endswith_conflict h (by decide) (by decide)
  have hfence : endswith w (toL "ence") = false := endswith_conflict h (by decide) (by decide)
  have hfer : endswith w (toL "er") = false := endswith_conflict₂ h (by decide) (by decide)
  have hch : w.getD (w.length - 2) ' ' = 'i' := endswith_getD_penult h (by decide) (by decide)
  have hlw : 2 ≤ w.length := endswith_length_ge h (by decide)
  have hb : mPorter w ((w.length : Int) - 3) = measure (w.take (w.length - 2)) :=
    mPorter_strip w _ 2 (by omega) (by omega) (by omega)
  have hfind : step4Rules.find? (fun r => endswith w r.1) = some (toL "ic", fun _ => true) := by
    unfold step4Rules
    rw [List.find?_cons_of_neg _ (by simpa using hfal),
      List.find?_cons_of_neg _ (by simpa using hfance),
      List.find?_cons_of_neg _ (by simpa using hfence),
      List.find?_cons_of_neg _ (by simpa using hfer)]
    exact List.find?_cons_of_pos _ (by simpa using h)
  rw [step4Claim_found hfind]
  simp only [step4]
  rw [if_neg (by omega), hch]
  rw [if_neg (show ¬(('i' : Char) = 'a') from by decide)]
  rw [if_neg (show ¬(('i' : Char) = 'c') from by decide)]
  rw [if_neg (show ¬(('i' : Char) = 'e') from by decide)]
  simp only [reduceIte]
  rw [if_pos h]
  rw [hb, show (toL "ic").length = 2 from by decide]
  simp only [eq_self_iff_true, and_true]

theorem step4_both_able (w : List Char) (h : endswith w (toL "able") = true) :
    step4 w = step4Claim w := by
  have hfal : endswith w (toL "al") = false := endswith_conflict₂ h (by decide) (by decide)
  have hfance : endswith w (toL "ance") = false := endswith_conflict₂ h (by decide) (by decide)
  have hfence : endswith w (toL "ence") = false := endswith_conflict₂ h (by decide) (by decide)
  have hfer : endswith w (toL "er") = false := endswith_conflict₂ h (by decide) (by decide)
  have hfic : endswith w (toL "ic") = false := endswith_conflict₂ h (by decide) (by decide)
  have hch : w.getD (w.length - 2) ' ' = 'l' := endswith_getD_penult h (by decide) (by decide)
  have hlw : 4 ≤ w.length := endswith_length_ge h (by decide)
  have hb : mPorter w ((w.length : Int) - 5) = measure (w.take (w.length - 4)) :=
    mPorter_strip w _ 4 (by omega) (by omega) (by omega)
  have hfind : step4Rules.find? (fun r => endswith w r.1) = some (toL "able", fun _ => true) := by
    unfold step4Rules
    rw [List.find?_cons_of_neg _ (by simpa using hfal),
      List.find?_cons_of_neg _ (by simpa using hfance),
      List.find?_cons_of_neg _ (by simpa using hfence),
      List.find?_cons_of_neg _ (by simpa using hfer),
      List.find?_cons_of_neg _ (by simpa using hfic)]
    exact List.find?_cons_of_pos _ (by simpa using h)
  rw [step4Claim_found hfind]
  simp only [step4]
  rw [if_neg (by omega), hch]
  rw [if_neg (show ¬(('l' : Char) = 'a') from by decide)]
  rw [if_neg (show ¬(('l' : Char) = 'c') from by decide)]
  rw [if_neg (show ¬(('l' : Char) = 'e') from by decide)]
  rw [if_neg (show ¬(('l' : Char) = 'i') from by decide)]
  simp only [reduceIte]
  rw [if_pos h]
  rw [hb, show (toL "able").length = 4 from by decide]
  simp only [eq_self_iff_true, and_true]

theorem step4_both_ible (w : List Char) (h : endswith w (toL "ible") = true) :
    step4 w = step4Claim w := by
  have hfal : endswith w (toL "al") = false := endswith_conflict₂ h (by decide) (by decide)
  have hfance : endswith w (toL "ance") = false := endswith_conflict₂ h (by decide) (by decide)
  have hfence : endswith w (toL "ence") = false := endswith_conflict₂ h (by decide) (by decide)
  have hfer : endswith w (toL "er") = false := endswith_conflict₂ h (by decide) (by decide)
  have hfic : endswith w (toL "ic") = false := endswith_conflict₂ h (by decide) (by decide)
  have hfable : endswith w (toL "able") = false := endswith_conflict₂ h (by decide) (by decide)
  have hch : w.getD (w.length - 2) ' ' = 'l' := endswith_getD_penult h (by decide) (by decide)
  have hlw : 4 ≤ w.length := endswith_length_ge h (by decide)
  have hb : mPorter w ((w.length : Int) - 5) = measure (w.take (w.length - 4)) :=
    mPorter_strip w _ 4 (by omega) (by omega) (by omega)
  have hfind : step4Rules.find? (fun r => endswith w r.1) = some (toL "ible", fun _ => true) := by
    unfold step4Rules
    rw [List.find?_cons_of_neg _ (by simpa using hfal),
      List.find?_cons_of_neg _ (by simpa using hfance),
      List.find?_cons_of_neg _ (by simpa using hfence),
      List.find?_cons_of_neg _ (by simpa using hfer),
      List.find?_cons_of_neg _ (by simpa using hfic),
      List.find?_cons_of_neg _ (by simpa using hfable)]
    exact List.find?_cons_of_pos _ (by simpa using h)
  rw [step4Claim_found hfind]
  simp only [step4]
  rw [if_neg (by omega), hch]
  rw [if_neg (show ¬(('l' : Char) = 'a') from by decide)]
  rw [if_neg (show ¬(('l' : Char) = 'c') from by decide)]
  rw [if_neg (show ¬(('l' : Char) = 'e') from by decide)]
  rw [if_neg (show ¬(('l' : Char) = 'i') from by decide)]
  simp only [reduceIte]
  rw [if_neg (by simp [hfable]), if_pos h]
  rw [hb, show (toL "ible").length = 4 from by decide]
  simp only [eq_self_iff_true, and_true]

theorem step4_both_ant (w : List Char) (h : endswith w (toL "ant") = true) :
    step4 w = step4Claim w := by
  have hfal : endswith w (toL "al") = false := endswith_conflict₂ h (by decide) (by decide)
  have hfance : endswith w (toL "ance") = false := endswith_conflict h (by decide) (by decide)
  have hfence : endswith w (toL "ence") = false := endswith_conflict h (by decide) (by decide)
  have hfer : endswith w (toL "er") = false := endswith_conflict₂ h (by decide) (by decide)
  have hfic : endswith w (toL "ic") = false := endswith_conflict₂ h (by decide) (by decide)
  have hfable : endswith w (toL "able") = false := endswith_conflict h (by decide) (by decide)
  have hfible : endswith w (toL "ible") = false := endswith_conflict h (by decide) (by decide)
  have hch : w.getD (w.length - 2) ' ' = 'n' := endswith_getD_penult h (by decide) (by decide)
  have hlw : 3 ≤ w.length := endswith_length_ge h (by decide)
  have hb : mPorter w ((w.length : Int) - 4) = measure (w.take (w.length - 3)) :=
    mPorter_strip w _ 3 (by omega) (by omega) (by omega)
  have hfind : step4Rules.find? (fun r => endswith w r.1) = some (toL "ant", fun _ => true) := by
    unfold step4Rules
    rw [List.find?_cons_of_neg _ (by simpa using hfal),
      List.find?_cons_of_neg _ (by simpa using hfance),
      List.find?_cons_of_neg _ (by simpa using hfence),
      List.find?_cons_of_neg _ (by simpa using hfer),
      List.find?_cons_of_neg _ (by simpa using hfic),
      List.find?_cons_of_neg _ (by simpa using hfable),
      List.find?_cons_of_neg _ (by simpa using hfible)]
    exact List.find?_cons_of_pos _ (by simpa using h)
  rw [step4Claim_found hfind]
  simp only [step4]
  rw [if_neg (by omega), hch]
  rw [if_neg (show ¬(('n' : Char) = 'a') from by decide)]
  rw [if_neg (show ¬(('n' : Char) = 'c') from by decide)]
  rw [if_neg (show ¬(('n' : Char) = 'e') from by decide)]
  rw [if_neg (show ¬(('n' : Char) = 'i') from by decide)]
  rw [if_neg (show ¬(('n' : Char) = 'l') from by decide)]
  simp only [reduceIte]
  rw [if_pos h]
  rw [hb, show (toL "ant").length = 3 from by decide]
  simp only [eq_self_iff_true, and_true]

theorem step4_both_ement (w : List Char) (h : endswith w (toL "ement") = true) :
    step4 w = step4Claim w := by
  have hfal : endswith w (toL "al") = false := endswith_conflict₂ h (by decide) (by decide)
  have hfance : endswith w (toL "ance") = false := endswith_conflict₂ h (by decide) (by decide)
  have hfence : endswith w (toL "ence") = false := endswith_conflict₂ h (by decide) (by decide)
  have hfer : endswith w (toL "er") = false := endswith_conflict₂ h (by decide) (by decide)
  have hfic : endswith w (toL "ic") = false := endswith_conflict₂ h (by decide) (by decide)
  have hfable : endswith w (toL "able") = false := endswith_conflict₂ h (by decide) (by decide)
  have hfible : endswith w (toL "ible") = false := endswith_conflict₂ h (by decide) (by decide)
  have hfant : endswith w (toL "ant") = false := endswith_conflict₂ h (by decide) (by decide)
  have hch : w.getD (w.length - 2) ' ' = 'n' := endswith_getD_penult h (by decide) (by decide)
  have hlw : 5 ≤ w.length := endswith_length_ge h (by decide)
  have hb : mPorter w ((w.length : Int) - 6) = measure (w.take (w.length - 5)) :=
    mPorter_strip w _ 5 (by omega) (by omega) (by omega)
  have hfind : step4Rules.find? (fun r => endswith w r.1) = some (toL "ement", fun _ => true) := by
    unfold step4Rules
    rw [List.find?_cons_of_neg _ (by simpa using hfal),
      List.find?_cons_of_neg _ (by simpa using hfance),
      List.find?_cons_of_neg _ (by simpa using hfence),
      List.find?_cons_of_neg _ (by simpa using hfer),
      List.find?_cons_of_neg _ (by simpa using hfic),
      List.find?_cons_of_neg _ (by simpa using hfable),
      List.find?_cons_of_neg _ (by simpa using hfible),
      List.find?_cons_of_neg _ (by simpa using hfant)]
    exact List.find?_cons_of_pos _ (by simpa using h)
  rw [step4Claim_found hfind]
  simp only [step4]
  rw [if_neg (by omega), hch]
  rw [if_neg (show ¬(('n' : Char) = 'a') from by decide)]
  rw [if_neg (show ¬(('n' : Char) = 'c') from by decide)]
  rw [if_neg (show ¬(('n' : Char) = 'e') from by decide)]
  rw [if_neg (show ¬(('n' : Char) = 'i') from by decide)]
  rw [if_neg (show ¬(('n' : Char) = 'l') from by decide)]
  simp only [reduceIte]
  rw [if_neg (by simp [hfant]), if_pos h]
  rw [hb, show (toL "ement").length = 5 from by decide]
  simp only [eq_self_iff_true, and_true]

theorem step4_both_ment (w : List Char) (h : endswith w (toL "ment") = true)
    (hhement : endswith w (toL "ement") = false) :
    step4 w = step4Claim w := by
  have hfal : endswith w (toL "al") = false := endswith_conflict₂ h (by decide) (by decide)
  have hfance : endswith w (toL "ance") = false := endswith_conflict₂ h (by decide) (by decide)
  have hfence : endswith w (toL "ence") = false := endswith_conflict₂ h (by decide) (by decide)
  have hfer : endswith w (toL "er") = false := endswith_conflict₂ h (by decide) (by decide)
  have hfic : endswith w (toL "ic") = false := endswith_conflict₂ h (by decide) (by decide)
  have hfable : endswith w (toL "able") = false := endswith_conflict₂ h (by decide) (by decide)
  have hfible : endswith w (toL "ible") = false := endswith_conflict₂ h (by decide) (by decide)
  have hfant : endswith w (toL "ant") = false := endswith_conflict₂ h (by decide) (by decide)
  have hfement : endswith w (toL "ement") = false := hhement
  have hch : w.getD (w.length - 2) ' ' = 'n' := endswith_getD_penult h (by decide) (by decide)
  have hlw : 4 ≤ w.length := endswith_length_ge h (by decide)
  have hb : mPorter w ((w.length : Int) - 5) = measure (w.take (w.length - 4)) :=
    mPorter_strip w _ 4 (by omega) (by omega) (by omega)
  have hfind : step4Rules.find? (fun r => endswith w r.1) = some (toL "ment", fun _ => true) := by
    unfold step4Rules
    rw [List.find?_cons_of_neg _ (by simpa using hfal),
      List.find?_cons_of_neg _ (by simpa using hfance),
      List.find?_cons_of_neg _ (by simpa using hfence),
      List.find?_cons_of_neg _ (by simpa using hfer),
      List.find?_cons_of_neg _ (by simpa using hfic),
      List.find?_cons_of_neg _ (by simpa using hfable),
      List.find?_cons_of_neg _ (by simpa using hfible),
      List.find?_cons_of_neg _ (by simpa using hfant),
      List.find?_cons_of_neg _ (by simpa using hfement)]
    exact List.find?_cons_of_pos _ (by simpa using h)
  rw [step4Claim_found hfind]
  simp only [step4]
  rw [if_neg (by omega), hch]
  rw [if_neg (show ¬(('n' : Char) = 'a') from by decide)]
  rw [if_neg (show ¬(('n' : Char) = 'c') from by decide)]
  rw [if_neg (show ¬(('n' : Char) = 'e') from by decide)]
  rw [if_neg (show ¬(('n' : Char) = 'i') from by decide)]
  rw [if_neg (show ¬(('n' : Char) = 'l') from by decide)]
  simp only [reduceIte]
  rw [if_neg (by simp [hfant]), if_neg (by simp [hfement]), if_pos h]
  rw [hb, show (toL "ment").length = 4 from by decide]
  simp only [eq_self_iff_true, and_true]

theorem step4_both_ent (w : List Char) (h : endswith w (toL "ent") = true)
    (hhment : endswith w (toL "ment") = false) :
    step4 w = step4Claim w := by
  have hfal : endswith w (toL "al") = false := endswith_conflict₂ h (by decide) (by decide)
  have hfance : endswith w (toL "ance") = false := endswith_conflict h (by decide) (by decide)
  have hfence : endswith w (toL "ence") = false := endswith_conflict h (by decide) (by decide)
  have hfer : endswith w (toL "er") = false := endswith_conflict₂ h (by decide) (by decide)
  have hfic : endswith w (toL "ic") = false := endswith_conflict₂ h (by decide) (by decide)
  have hfable : endswith w (toL "able") = false := endswith_conflict h (by decide) (by decide)
  have hfible : endswith w (toL "ible") = false := endswith_conflict h (by decide) (by decide)
  have hfant : endswith w (toL "ant") = false := endswith_conflict₂ h (by decide) (by decide)
  have hfement : endswith w (toL "ement") = false := endswith_false_of_tail (by decide) hhment
  have hfment : endswith w (toL "ment") = false := hhment
  have hch : w.getD (w.length - 2) ' ' = 'n' := endswith_getD_penult h (by decide) (by decide)
  have hlw : 3 ≤ w.length := endswith_length_ge h (by decide)
  have hb : mPorter w ((w.length : Int) - 4) = measure (w.take (w.length - 3)) :=
    mPorter_strip w _ 3 (by omega) (by omega) (by omega)
  have hfind : step4Rules.find? (fun r => endswith w r.1) = some (toL "ent", fun _ => true) := by
    unfold step4Rules
    rw [List.find?_cons_of_neg _ (by simpa using hfal),
      List.find?_cons_of_neg _ (by simpa using hfance),
      List.find?_cons_of_neg _ (by simpa using hfence),
      List.find?_cons_of_neg _ (by simpa using hfer),
      List.find?_cons_of_neg _ (by simpa using hfic),
      List.find?_cons_of_neg _ (by simpa using hfable),
      List.find?_cons_of_neg _ (by simpa using hfible),
      List.find?_cons_of_neg _ (by simpa using hfant),
      List.find?_cons_of_neg _ (by simpa using hfement),
      List.find?_cons_of_neg _ (by simpa using hfment)]
    exact List.find?_cons_of_pos _ (by simpa using h)
  rw [step4Claim_found hfind]
  simp only [step4]
  rw [if_neg (by omega), hch]
  rw [if_neg (show ¬(('n' : Char) = 'a') from by decide)]
  rw [if_neg (show ¬(('n' : Char) = 'c') from by decide)]
  rw [if_neg (show ¬(('n' : Char) = 'e') from by decide)]
  rw [if_neg (show ¬(('n' : Char) = 'i') from by decide)]
  rw [if_neg (show ¬(('n' : Char) = 'l') from by decide)]
  simp only [reduceIte]
  rw [if_neg (by simp [hfant]), if_neg (by simp [hfement]), if_neg (by simp [hfment]), if_pos h]
  rw [hb, show (toL "ent").length = 3 from by decide]
  simp only [eq_self_iff_true, and_true]

theorem concat_suffix_char {w q t : List Char} {c d : Char}
    (hw : w = (q ++ [c]) ++ t) (h : endswith w (d :: t) = true) : c = d := by
  obtain ⟨r, hr⟩ := endswith_iff.mp h
  rw [hw] at hr
  have hr' : (r ++ [d]) ++ t = (q ++ [c]) ++ t := by
    rw [List.append_assoc]
    exact hr
  have h2 : r ++ [d] = q ++ [c] := List.append_cancel_right hr'
  have h3 : (r ++ [d]).getLastD ' ' = (q ++ [c]).getLastD ' ' := by rw [h2]
  rw [List.getLastD_concat, List.getLastD_concat] at h3
  exact h3.symm

theorem step4_both_ion (w : List Char) (h : endswith w (toL "ion") = true) :
    step4 w = step4Claim w := by
  by_cases hw : w = toL "ion"
  · subst hw
    decide
  · have hfal : endswith w (toL "al") = false := endswith_conflict₂ h (by decide) (by decide)
    have hfance : endswith w (toL "ance") = false := endswith_conflict h (by decide) (by decide)
    have hfence : endswith w (toL "ence") = false := endswith_conflict h (by decide) (by decide)
    have hfer : endswith w (toL "er") = false := endswith_conflict₂ h (by decide) (by decide)
    have hfic : endswith w (toL "ic") = false := endswith_conflict₂ h (by decide) (by decide)
    have hfable : endswith w (toL "able") = false := endswith_conflict h (by decide) (by decide)
    have hfible : endswith w (toL "ible") = false := endswith_conflict h (by decide) (by decide)
    have hfant : endswith w (toL "ant") = false := endswith_conflict₂ h (by decide) (by decide)
    have hfement : endswith w (toL "ement") = false := endswith_conflict h (by decide) (by decide)
    have hfment : endswith w (toL "ment") = false := endswith_conflict h (by decide) (by decide)
    have hfent : endswith w (toL "ent") = false := endswith_conflict₂ h (by decide) (by decide)
    have hch : w.getD (w.length - 2) ' ' = 'o' := endswith_getD_penult h (by decide) (by decide)
    have hlw : 3 ≤ w.length := endswith_length_ge h (by decide)
    have hb : mPorter w ((w.length : Int) - 4) = measure (w.take (w.length - 3)) :=
      mPorter_strip w _ 3 (by omega) (by omega) (by omega)
    have hfind : step4Rules.find? (fun r => endswith w r.1) = some (toL "ion",
        fun stem => decide (stem.getLastD ' ' = 's' ∨ stem.getLastD ' ' = 't')) := by
      unfold step4Rules
      rw [List.find?_cons_of_neg _ (by simpa using hfal),
        List.find?_cons_of_neg _ (by simpa using hfance),
        List.find?_cons_of_neg _ (by simpa using hfence),
        List.find?_cons_of_neg _ (by simpa using hfer),
        List.find?_cons_of_neg _ (by simpa using hfic),
        List.find?_cons_of_neg _ (by simpa using hfable),
        List.find?_cons_of_neg _ (by simpa using hfible),
        List.find?_cons_of_neg _ (by simpa using hfant),
        List.find?_cons_of_neg _ (by simpa using hfement),
        List.find?_cons_of_neg _ (by simpa using hfment),
        List.find?_cons_of_neg _ (by simpa using hfent)]
      exact List.find?_cons_of_pos _ (by simpa using h)
    rw [step4Claim_found hfind]
    obtain ⟨p, hp⟩ := endswith_iff.mp h
    have hpne : p ≠ [] := fun hnil => hw (by rw [← hp, hnil]; rfl)
    rcases List.eq_nil_or_concat p with rfl | ⟨q, c, rfl⟩
    · exact absurd rfl hpne
    · simp only [List.concat_eq_append] at hp hpne
      have hstem : w.take (w.length - 3) = q ++ [c] := by
        rw [← hp, List.length_append, show (toL "ion").length = 3 from by decide,
          show (q ++ [c]).length + 3 - 3 = (q ++ [c]).length from by omega]
        exact List.take_left _ _
      have hlastc : (q ++ [c]).getLastD ' ' = c := List.getLastD_concat _ _ _
      simp only [step4]
      rw [if_neg (by omega), hch]
      rw [if_neg (show ¬(('o' : Char) = 'a') from by decide)]
      rw [if_neg (show ¬(('o' : Char) = 'c') from by decide)]
      rw [if_neg (show ¬(('o' : Char) = 'e') from by decide)]
      rw [if_neg (show ¬(('o' : Char) = 'i') from by decide)]
      rw [if_neg (show ¬(('o' : Char) = 'l') from by decide)]
      rw [if_neg (show ¬(('o' : Char) = 'n') from by decide)]
      simp only [reduceIte]
      by_cases hcs : c = 's'
      · subst hcs
        have hsion : endswith w (toL "sion") = true := by
          rw [← hp, List.append_assoc]
          exact endswith_app _ _
        rw [if_pos (by simp [hsion])]
        rw [hb, show (toL "ion").length = 3 from by decide, hstem]
        simp only [decide_eq_true_eq]
        rw [hlastc]
        simp only [eq_self_iff_true, true_or, and_true]
      · by_cases hct : c = 't'
        · subst hct
          have htion : endswith w (toL "tion") = true := by
            rw [← hp, List.append_assoc]
            exact endswith_app _ _
          rw [if_pos (by simp [htion])]
          rw [hb, show (toL "ion").length = 3 from by decide, hstem]
          simp only [decide_eq_true_eq]
          rw [hlastc]
          simp only [eq_self_iff_true, or_true, and_true]
        · have hfsion : endswith w (toL "sion") = false := by
            cases he : endswith w (toL "sion")
            · rfl
            · have he' : endswith w ('s' :: toL "ion") = true := by
                rw [show 's' :: toL "ion" = toL "sion" from rfl]
                exact he
              exact absurd (concat_suffix_char hp.symm he') hcs
          have hftion : endswith w (toL "tion") = false := by
            cases he : endswith w (toL "tion")
            · rfl
            · have he' : endswith w ('t' :: toL "ion") = true := by
                rw [show 't' :: toL "ion" = toL "tion" from rfl]
                exact he
              exact absurd (concat_suffix_char hp.symm he') hct
          have hfou : endswith w (toL "ou") = false :=
            endswith_conflict₂ h (by decide) (by decide)
          rw [if_neg (by simp [hfsion, hftion]), if_neg (by simp [hfou])]
          rw [show (toL "ion").length = 3 from by decide, hstem]
          simp only [decide_eq_true_eq]
          rw [hlastc]
          rw [if_neg (fun hcon => hcon.2.elim hcs hct)]

theorem step4_both_ou (w : List Char) (h : endswith w (toL "ou") = true) :
    step4 w = step4Claim w := by
  have hfal : endswith w (toL "al") = false := endswith_conflict₂ h (by decide) (by decide)
  have hfance : endswith w (toL "ance") = false := endswith_conflict h (by decide) (by decide)
  have hfence : endswith w (toL "ence") = false := endswith_conflict h (by decide) (by decide)
  have hfer : endswith w (toL "er") = false := endswith_conflict₂ h (by decide) (by decide)
  have hfic : endswith w (toL "ic") = false := endswith_conflict₂ h (by decide) (by decide)
  have hfable : endswith w (toL "able") = false := endswith_conflict h (by decide) (by decide)
  have hfible : endswith w (toL "ible") = false := endswith_conflict h (by decide) (by decide)
  have hfant : endswith w (toL "ant") = false := endswith_conflict h (by decide) (by decide)
  have hfement : endswith w (toL "ement") = false := endswith_conflict h (by decide) (by decide)
  have hfment : endswith w (toL "ment") = false := endswith_conflict h (by decide) (by decide)
  have hfent : endswith w (toL "ent") = false := endswith_conflict h (by decide) (by decide)
  have hfion : endswith w (toL "ion") = false := endswith_conflict h (by decide) (by decide)
  have hfsion : endswith w (toL "sion") = false := endswith_conflict h (by decide) (by decide)
  have hftion : endswith w (toL "tion") = false := endswith_conflict h (by decide) (by decide)
  have hch : w.getD (w.length - 2) ' ' = 'o' := endswith_getD_penult h (by decide) (by decide)
  have hlw : 2 ≤ w.length := endswith_length_ge h (by decide)
  have hb : mPorter w ((w.length : Int) - 3) = measure (w.take (w.length - 2)) :=
    mPorter_strip w _ 2 (by omega) (by omega) (by omega)
  have hfind : step4Rules.find? (fun r => endswith w r.1) = some (toL "ou", fun _ => true) := by
    unfold step4Rules
    rw [List.find?_cons_of_neg _ (by simpa using hfal),
      List.find?_cons_of_neg _ (by simpa using hfance),
      List.find?_cons_of_neg _ (by simpa using hfence),
      List.find?_cons_of_neg _ (by simpa using hfer),
      List.find?_cons_of_neg _ (by simpa using hfic),
      List.find?_cons_of_neg _ (by simpa using hfable),
      List.find?_cons_of_neg _ (by simpa using hfible),
      List.find?_cons_of_neg _ (by simpa using hfant),
      List.find?_cons_of_neg _ (by simpa using hfement),
      List.find?_cons_of_neg _ (by simpa using hfment),
      List.find?_cons_of_neg _ (by simpa using hfent),
      List.find?_cons_of_neg _ (by simpa using hfion)]
    exact List.find?_cons_of_pos _ (by simpa using h)
  rw [step4Claim_found hfind]
  simp only [step4]
  rw [if_neg (by omega), hch]
  rw [if_neg (show ¬(('o' : Char) = 'a') from by decide)]
  rw [if_neg (show ¬(('o' : Char) = 'c') from by decide)]
  rw [if_neg (show ¬(('o' : Char) = 'e') from by decide)]
  rw [if_neg (show ¬(('o' : Char) = 'i') from by decide)]
  rw [if_neg (show ¬(('o' : Char) = 'l') from by decide)]
  rw [if_neg (show ¬(('o' : Char) = 'n') from by decide)]
  simp only [reduceIte]
  rw [if_neg (by simp [hfsion, hftion]), if_pos h]
  rw [hb, show (toL "ou").length = 2 from by decide]
  simp only [eq_self_iff_true, and_true]

theorem step4_both_ism (w : List Char) (h : endswith w (toL "ism") = true) :
    step4 w = step4Claim w := by
  have hfal : endswith w (toL "al") = false := endswith_conflict₂ h (by decide) (by decide)
  have hfance : endswith w (toL "ance") = false := endswith_conflict h (by decide) (by decide)
  have hfence : endswith w (toL "ence") = false := endswith_conflict h (by decide) (by decide)
  have hfer : endswith w (toL "er") = false := endswith_conflict₂ h (by decide) (by decide)
  have hfic : endswith w (toL "ic") = false := endswith_conflict₂ h (by decide) (by decide)
  have hfable : endswith w (toL "able") = false := endswith_conflict h (by decide) (by decide)
  have hfible : endswith w (toL "ible") = false := endswith_conflict h (by decide) (by decide)
  have hfant : endswith w (toL "ant") = false := endswith_conflict₂ h (by decide) (by decide)
  have hfement : endswith w (toL "ement") = false := endswith_conflict h (by decide) (by decide)
  have hfment : endswith w (toL "ment") = false := endswith_conflict h (by decide) (by decide)
  have hfent : endswith w (toL "ent") = false := endswith_conflict₂ h (by decide) (by decide)
  have hfion : endswith w (toL "ion") = false := endswith_conflict₂ h (by decide) (by decide)
  have hfou : endswith w (toL "ou") = false := endswith_conflict₂ h (by decide) (by decide)
  have hch : w.getD (w.length - 2) ' ' = 's' := endswith_getD_penult h (by decide) (by decide)
  have hlw : 3 ≤ w.length := endswith_length_ge h (by decide)
  have hb : mPorter w ((w.length : Int) - 4) = measure (w.take (w.length - 3)) :=
    mPorter_strip w _ 3 (by omega) (by omega) (by omega)
  have hfind : step4Rules.find? (fun r => endswith w r.1) = some (toL "ism", fun _ => true) := by
    unfold step4Rules
    rw [List.find?_cons_of_neg _ (by simpa using hfal),
      List.find?_cons_of_neg _ (by simpa using hfance),
      List.find?_cons_of_neg _ (by simpa using hfence),
      List.find?_cons_of_neg _ (by simpa using hfer),
      List.find?_cons_of_neg _ (by simpa using hfic),
      List.find?_cons_of_neg _ (by simpa using hfable),
      List.find?_cons_of_neg _ (by simpa using hfible),
      List.find?_cons_of_neg _ (by simpa using hfant),
      List.find?_cons_of_neg _ (by simpa using hfement),
      List.find?_cons_of_neg _ (by simpa using hfment),
      List.find?_cons_of_neg _ (by simpa using hfent),
      List.find?_cons_of_neg _ (by simpa using hfion),
      List.find?_cons_of_neg _ (by simpa using hfou)]
    exact List.find?_cons_of_pos _ (by simpa using h)
  rw [step4Claim_found hfind]
  simp only [step4]
  rw [if_neg (by omega), hch]
  rw [if_neg (show ¬(('s' : Char) = 'a') from by decide)]
  rw [if_neg (show ¬(('s' : Char) = 'c') from by decide)]
  rw [if_neg (show ¬(('s' : Char) = 'e') from by decide)]
  rw [if_neg (show ¬(('s' : Char) = 'i') from by decide)]
  rw [if_neg (show ¬(('s' : Char) = 'l') from by decide)]
  rw [if_neg (show ¬(('s' : Char) = 'n') from by decide)]
  rw [if_neg (show ¬(('s' : Char) = 'o') from by decide)]
  simp only [reduceIte]
  rw [if_pos h]
  rw [hb, show (toL "ism").length = 3 from by decide]
  simp only [eq_self_iff_true, and_true]

theorem step4_both_ate (w : List Char) (h : endswith w (toL "ate") = true) :
    step4 w = step4Claim w := by
  have hfal : endswith w (toL "al") = false := endswith_conflict₂ h (by decide) (by decide)
  have hfance : endswith w (toL "ance") = false := endswith_conflict h (by decide) (by decide)
  have hfence : endswith w (toL "ence") = false := endswith_conflict h (by decide) (by decide)
  have hfer : endswith w (toL "er") = false := endswith_conflict₂ h (by decide) (by decide)
  have hfic : endswith w (toL "ic") = false := endswith_conflict₂ h (by decide) (by decide)
  have hfable : endswith w (toL "able") = false := endswith_conflict h (by decide) (by decide)
  have hfible : endswith w (toL "ible") = false := endswith_conflict h (by decide) (by decide)
  have hfant : endswith w (toL "ant") = false := endswith_conflict₂ h (by decide) (by decide)
  have hfement : endswith w (toL "ement") = false := endswith_conflict h (by decide) (by decide)
  have hfment : endswith w (toL "ment") = false := endswith_conflict h (by decide) (by decide)
  have hfent : endswith w (toL "ent") = false := endswith_conflict₂ h (by decide) (by decide)
  have hfion : endswith w (toL "ion") = false := endswith_conflict₂ h (by decide) (by decide)
  have hfou : endswith w (toL "ou") = false := endswith_conflict₂ h (by decide) (by decide)
  have hfism : endswith w (toL "ism") = false := endswith_conflict₂ h (by decide) (by decide)
  have hch : w.getD (w.length - 2) ' ' = 't' := endswith_getD_penult h (by decide) (by decide)
  have hlw : 3 ≤ w.length := endswith_length_ge h (by decide)
  have hb : mPorter w ((w.length : Int) - 4) = measure (w.take (w.length - 3)) :=
    mPorter_strip w _ 3 (by omega) (by omega) (by omega)
  have hfind : step4Rules.find? (fun r => endswith w r.1) = some (toL "ate", fun _ => true) := by
    unfold step4Rules
    rw [List.find?_cons_of_neg _ (by simpa using hfal),
      List.find?_cons_of_neg _ (by simpa using hfance),
      List.find?_cons_of_neg _ (by simpa using hfence),
      List.find?_cons_of_neg _ (by simpa using hfer),
      List.find?_cons_of_neg _ (by simpa using hfic),
      List.find?_cons_of_neg _ (by simpa using hfable),
      List.find?_cons_of_neg _ (by simpa using hfible),
      List.find?_cons_of_neg _ (by simpa using hfant),
      List.find?_cons_of_neg _ (by simpa using hfement),
      List.find?_cons_of_neg _ (by simpa using hfment),
      List.find?_cons_of_neg _ (by simpa using hfent),
      List.find?_cons_of_neg _ (by simpa using hfion),
      List.find?_cons_of_neg _ (by simpa using hfou),
      List.find?_cons_of_neg _ (by simpa using hfism)]
    exact List.find?_cons_of_pos _ (by simpa using h)
  rw [step4Claim_found hfind]
  simp only [step4]
  rw [if_neg (by omega), hch]
  rw [if_neg (show ¬(('t' : Char) = 'a') from by decide)]
  rw [if_neg (show ¬(('t' : Char) = 'c') from by decide)]
  rw [if_neg (show ¬(('t' : Char) = 'e') from by decide)]
  rw [if_neg (show ¬(('t' : Char) = 'i') from by decide)]
  rw [if_neg (show ¬(('t' : Char) = 'l') from by decide)]
  rw [if_neg (show ¬(('t' : Char) = 'n') from by decide)]
  rw [if_neg (show ¬(('t' : Char) = 'o') from by decide)]
  rw [if_neg (show ¬(('t' : Char) = 's') from by decide)]
  simp only [reduceIte]
  rw [if_pos h]
  rw [hb, show (toL "ate").length = 3 from by decide]
  simp only [eq_self_iff_true, and_true]

theorem step4_both_iti (w : List Char) (h : endswith w (toL "iti") = true) :
    step4 w = step4Claim w := by
  have hfal : endswith w (toL "al") = false := endswith_conflict₂ h (by decide) (by decide)
  have hfance : endswith w (toL "ance") = false := endswith_conflict h (by decide) (by decide)
  have hfence : endswith w (toL "ence") = false := endswith_conflict h (by decide) (by decide)
  have hfer : endswith w (toL "er") = false := endswith_conflict₂ h (by decide) (by decide)
  have hfic : endswith w (toL "ic") = false := endswith_conflict₂ h (by decide) (by decide)
  have hfable : endswith w (toL "able") = false := endswith_conflict h (by decide) (by decide)
  have hfible : endswith w (toL "ible") = false := endswith_conflict h (by decide) (by decide)
  have hfant : endswith w (toL "ant") = false := endswith_conflict₂ h (by decide) (by decide)
  have hfement : endswith w (toL "ement") = false := endswith_conflict h (by decide) (by decide)
  have hfment : endswith w (toL "ment") = false := endswith_conflict h (by decide) (by decide)
  have hfent : endswith w (toL "ent") = false := endswith_conflict₂ h (by decide) (by decide)
  have hfion : endswith w (toL "ion") = false := endswith_conflict₂ h (by decide) (by decide)
  have hfou : endswith w (toL "ou") = false := endswith_conflict₂ h (by decide) (by decide)
  have hfism : endswith w (toL "ism") = false := endswith_conflict₂ h (by decide) (by decide)
  have hfate : endswith w (toL "ate") = false := endswith_conflict₂ h (by decide) (by decide)
  have hch : w.getD (w.length - 2) ' ' = 't' := endswith_getD_penult h (by decide) (by decide)
  have hlw : 3 ≤ w.length := endswith_length_ge h (by decide)
  have hb : mPorter w ((w.length : Int) - 4) = measure (w.take (w.length - 3)) :=
    mPorter_strip w _ 3 (by omega) (by omega) (by omega)
  have hfind : step4Rules.find? (fun r => endswith w r.1) = some (toL "iti", fun _ => true) := by
    unfold step4Rules
    rw [List.find?_cons_of_neg _ (by simpa using hfal),
      List.find?_cons_of_neg _ (by simpa using hfance),
      List.find?_cons_of_neg _ (by simpa using hfence),
      List.find?_cons_of_neg _ (by simpa using hfer),
      List.find?_cons_of_neg _ (by simpa using hfic),
      List.find?_cons_of_neg _ (by simpa using hfable),
      List.find?_cons_of_neg _ (by simpa using hfible),
      List.find?_cons_of_neg _ (by simpa using hfant),
      List.find?_cons_of_neg _ (by simpa using hfement),
      List.find?_cons_of_neg _ (by simpa using hfment),
      List.find?_cons_of_neg _ (by simpa using hfent),
      List.find?_cons_of_neg _ (by simpa using hfion),
      List.find?_cons_of_neg _ (by simpa using hfou),
      List.find?_cons_of_neg _ (by simpa using hfism),
      List.find?_cons_of_neg _ (by simpa using hfate)]
    exact List.find?_cons_of_pos _ (by simpa using h)
  rw [step4Claim_found hfind]
  simp only [step4]
  rw [if_neg (by omega), hch]
  rw [if_neg (show ¬(('t' : Char) = 'a') from by decide)]
  rw [if_neg (show ¬(('t' : Char) = 'c') from by decide)]
  rw [if_neg (show ¬(('t' : Char) = 'e') from by decide)]
  rw [if_neg (show ¬(('t' : Char) = 'i') from by decide)]
  rw [if_neg (show ¬(('t' : Char) = 'l') from by decide)]
  rw [if_neg (show ¬(('t' : Char) = 'n') from by decide)]
  rw [if_neg (show ¬(('t' : Char) = 'o') from by decide)]
  rw [if_neg (show ¬(('t' : Char) = 's') from by decide)]
  simp only [reduceIte]
  rw [if_neg (by simp [hfate]), if_pos h]
  rw [hb, show (toL "iti").length = 3 from by decide]
  simp only [eq_self_iff_true, and_true]

theorem step4_both_ous (w : List Char) (h : endswith w (toL "ous") = true) :
    step4 w = step4Claim w := by
  have hfal : endswith w (toL "al") = false := endswith_conflict₂ h (by decide) (by decide)
  have hfance : endswith w (toL "ance") = false := endswith_conflict h (by decide) (by decide)
  have hfence : endswith w (toL "ence") = false := endswith_conflict h (by decide) (by decide)
  have hfer : endswith w (toL "er") = false := endswith_conflict₂ h (by decide) (by decide)
  have hfic : endswith w (toL "ic") = false := endswith_conflict₂ h (by decide) (by decide)
  have hfable : endswith w (toL "able") = false := endswith_conflict h (by decide) (by decide)
  have hfible : endswith w (toL "ible") = false := endswith_conflict h (by decide) (by decide)
  have hfant : endswith w (toL "ant") = false := endswith_conflict₂ h (by decide) (by decide)
  have hfement : endswith w (toL "ement") = false := endswith_conflict h (by decide) (by decide)
  have hfment : endswith w (toL "ment") = false := endswith_conflict h (by decide) (by decide)
  have hfent : endswith w (toL "ent") = false := endswith_conflict₂ h (by decide) (by decide)
  have hfion : endswith w (toL "ion") = false := endswith_conflict₂ h (by decide) (by decide)
  have hfou : endswith w (toL "ou") = false := endswith_conflict₂ h (by decide) (by decide)
  have hfism : endswith w (toL "ism") = false := endswith_conflict₂ h (by decide) (by decide)
  have hfate : endswith w (toL "ate") = false := endswith_conflict₂ h (by decide) (by decide)
  have hfiti : endswith w (toL "iti") = false := endswith_conflict₂ h (by decide) (by decide)
  have hch : w.getD (w.length - 2) ' ' = 'u' := endswith_getD_penult h (by decide) (by decide)
  have hlw : 3 ≤ w.length := endswith_length_ge h (by decide)
  have hb : mPorter w ((w.length : Int) - 4) = measure (w.take (w.length - 3)) :=
    mPorter_strip w _ 3 (by omega) (by omega) (by omega)
  have hfind : step4Rules.find? (fun r => endswith w r.1) = some (toL "ous", fun _ => true) := by
    unfold step4Rules
    rw [List.find?_cons_of_neg _ (by simpa using hfal),
      List.find?_cons_of_neg _ (by simpa using hfance),
      List.find?_cons_of_neg _ (by simpa using hfence),
      List.find?_cons_of_neg _ (by simpa using hfer),
      List.find?_cons_of_neg _ (by simpa using hfic),
      List.find?_cons_of_neg _ (by simpa using hfable),
      List.find?_cons_of_neg _ (by simpa using hfible),
      List.find?_cons_of_neg _ (by simpa using hfant),
      List.find?_cons_of_neg _ (by simpa using hfement),
      List.find?_cons_of_neg _ (by simpa using hfment),
      List.find?_cons_of_neg _ (by simpa using hfent),
      List.find?_cons_of_neg _ (by simpa using hfion),
      List.find?_cons_of_neg _ (by simpa using hfou),
      List.find?_cons_of_neg _ (by simpa using hfism),
      List.find?_cons_of_neg _ (by simpa using hfate),
      List.find?_cons_of_neg _ (by simpa using hfiti)]
    exact List.find?_cons_of_pos _ (by simpa using h)
  rw [step4Claim_found hfind]
  simp only [step4]
  rw [if_neg (by omega), hch]
  rw [if_neg (show ¬(('u' : Char) = 'a') from by decide)]
  rw [if_neg (show ¬(('u' : Char) = 'c') from by decide)]
  rw [if_neg (show ¬(('u' : Char) = 'e') from by decide)]
  rw [if_neg (show ¬(('u' : Char) = 'i') from by decide)]
  rw [if_neg (show ¬(('u' : Char) = 'l') from by decide)]
  rw [if_neg (show ¬(('u' : Char) = 'n') from by decide)]
  rw [if_neg (show ¬(('u' : Char) = 'o') from by decide)]
  rw [if_neg (show ¬(('u' : Char) = 's') from by decide)]
  rw [if_neg (show ¬(('u' : Char) = 't') from by decide)]
  simp only [reduceIte]
  rw [if_pos h]
  rw [hb, show (toL "ous").length = 3 from by decide]
  simp only [eq_self_iff_true, and_true]

theorem step4_both_ive (w : List Char) (h : endswith w (toL "ive") = true) :
    step4 w = step4Claim w := by
  have hfal : endswith w (toL "al") = false := endswith_conflict₂ h (by decide) (by decide)
  have hfance : endswith w (toL "ance") = false := endswith_conflict h (by decide) (by decide)
  have hfence : endswith w (toL "ence") = false := endswith_conflict h (by decide) (by decide)
  have hfer : endswith w (toL "er") = false := endswith_conflict₂ h (by decide) (by decide)
  have hfic : endswith w (toL "ic") = false := endswith_conflict₂ h (by decide) (by decide)
  have hfable : endswith w (toL "able") = false := endswith_conflict h (by decide) (by decide)
  have hfible : endswith w (toL "ible") = false := endswith_conflict h (by decide) (by decide)
  have hfant : endswith w (toL "ant") = false := endswith_conflict₂ h (by decide) (by decide)
  have hfement : endswith w (toL "ement") = false := endswith_conflict h (by decide) (by decide)
  have hfment : endswith w (toL "ment") = false := endswith_conflict h (by decide) (by decide)
  have hfent : endswith w (toL "ent") = false := endswith_conflict₂ h (by decide) (by decide)
  have hfion : endswith w (toL "ion") = false := endswith_conflict₂ h (by decide) (by decide)
  have hfou : endswith w (toL "ou") = false := endswith_conflict₂ h (by decide) (by decide)
  have hfism : endswith w (toL "ism") = false := endswith_conflict₂ h (by decide) (by decide)
  have hfate : endswith w (toL "ate") = false := endswith_conflict₂ h (by decide) (by decide)
  have hfiti : endswith w (toL "iti") = false := endswith_conflict₂ h (by decide) (by decide)
  have hfous : endswith w (toL "ous") = false := endswith_conflict₂ h (by decide) (by decide)
  have hch : w.getD (w.length - 2) ' ' = 'v' := endswith_getD_penult h (by decide) (by decide)
  have hlw : 3 ≤ w.length := endswith_length_ge h (by decide)
  have hb : mPorter w ((w.length : Int) - 4) = measure (w.take (w.length - 3)) :=
    mPorter_strip w _ 3 (by omega) (by omega) (by omega)
  have hfind : step4Rules.find? (fun r => endswith w r.1) = some (toL "ive", fun _ => true) := by
    unfold step4Rules
    rw [List.find?_cons_of_neg _ (by simpa using hfal),
      List.find?_cons_of_neg _ (by simpa using hfance),
      List.find?_cons_of_neg _ (by simpa using hfence),
      List.find?_cons_of_neg _ (by simpa using hfer),
      List.find?_cons_of_neg _ (by simpa using hfic),
      List.find?_cons_of_neg _ (by simpa using hfable),
      List.find?_cons_of_neg _ (by simpa using hfible),
      List.find?_cons_of_neg _ (by simpa using hfant),
      List.find?_cons_of_neg _ (by simpa using hfement),
      List.find?_cons_of_neg _ (by simpa using hfment),
      List.find?_cons_of_neg _ (by simpa using hfent),
      List.find?_cons_of_neg _ (by simpa using hfion),
      List.find?_cons_of_neg _ (by simpa using hfou),
      List.find?_cons_of_neg _ (by simpa using hfism),
      List.find?_cons_of_neg _ (by simpa using hfate),
      List.find?_cons_of_neg _ (by simpa using hfiti),
      List.find?_cons_of_neg _ (by simpa using hfous)]
    exact List.find?_cons_of_pos _ (by simpa using h)
  rw [step4Claim_found hfind]
  simp only [step4]
  rw [if_neg (by omega), hch]
  rw [if_neg (show ¬(('v' : Char) = 'a') from by decide)]
  rw [if_neg (show ¬(('v' : Char) = 'c') from by decide)]
  rw [if_neg (show ¬(('v' : Char) = 'e') from by decide)]
  rw [if_neg (show ¬(('v' : Char) = 'i') from by decide)]
  rw [if_neg (show ¬(('v' : Char) = 'l') from by decide)]
  rw [if_neg (show ¬(('v' : Char) = 'n') from by decide)]
  rw [if_neg (show ¬(('v' : Char) = 'o') from by decide)]
  rw [if_neg (show ¬(('v' : Char) = 's') from by decide)]
  rw [if_neg (show ¬(('v' : Char) = 't') from by decide)]
  rw [if_neg (show ¬(('v' : Char) = 'u') from by decide)]
  simp only [reduceIte]
  rw [if_pos h]
  rw [hb, show (toL "ive").length = 3 from by decide]
  simp only [eq_self_iff_true, and_true]

theorem step4_both_ize (w : List Char) (h : endswith w (toL "ize") = true) :
    step4 w = step4Claim w := by
  have hfal : endswith w (toL "al") = false := endswith_conflict₂ h (by decide) (by decide)
  have hfance : endswith w (toL "ance") = false := endswith_conflict h (by decide) (by decide)
  have hfence : endswith w (toL "ence") = false := endswith_conflict h (by decide) (by decide)
  have hfer : endswith w (toL "er") = false := endswith_conflict₂ h (by decide) (by decide)
  have hfic : endswith w (toL "ic") = false := endswith_conflict₂ h (by decide) (by decide)
  have hfable : endswith w (toL "able") = false := endswith_conflict h (by decide) (by decide)
  have hfible : endswith w (toL "ible") = false := endswith_conflict h (by decide) (by decide)
  have hfant : endswith w (toL "ant") = false := endswith_conflict₂ h (by decide) (by decide)
  have hfement : endswith w (toL "ement") = false := endswith_conflict h (by decide) (by decide)
  have hfment : endswith w (toL "ment") = false := endswith_conflict h (by decide) (by decide)
  have hfent : endswith w (toL "ent") = false := endswith_conflict₂ h (by decide) (by decide)
  have hfion : endswith w (toL "ion") = false := endswith_conflict₂ h (by decide) (by decide)
  have hfou : endswith w (toL "ou") = false := endswith_conflict₂ h (by decide) (by decide)
  have hfism : endswith w (toL "ism") = false := endswith_conflict₂ h (by decide) (by decide)
  have hfate : endswith w (toL "ate") = false := endswith_conflict₂ h (by decide) (by decide)
  have hfiti : endswith w (toL "iti") = false := endswith_conflict₂ h (by decide) (by decide)
  have hfous : endswith w (toL "ous") = false := endswith_conflict₂ h (by decide) (by decide)
  have hfive : endswith w (toL "ive") = false := endswith_conflict₂ h (by decide) (by decide)
  have hch : w.getD (w.length - 2) ' ' = 'z' := endswith_getD_penult h (by decide) (by decide)
  have hlw : 3 ≤ w.length := endswith_length_ge h (by decide)
  have hb : mPorter w ((w.length : Int) - 4) = measure (w.take (w.length - 3)) :=
    mPorter_strip w _ 3 (by omega) (by omega) (by omega)
  have hfind : step4Rules.find? (fun r => endswith w r.1) = some (toL "ize", fun _ => true) := by
    unfold step4Rules
    rw [List.find?_cons_of_neg _ (by simpa using hfal),
      List.find?_cons_of_neg _ (by simpa using hfance),
      List.find?_cons_of_neg _ (by simpa using hfence),
      List.find?_cons_of_neg _ (by simpa using hfer),
      List.find?_cons_of_neg _ (by simpa using hfic),
      List.find?_cons_of_neg _ (by simpa using hfable),
      List.find?_cons_of_neg _ (by simpa using hfible),
      List.find?_cons_of_neg _ (by simpa using hfant),
      List.find?_cons_of_neg _ (by simpa using hfement),
      List.find?_cons_of_neg _ (by simpa using hfment),
      List.find?_cons_of_neg _ (by simpa using hfent),
      List.find?_cons_of_neg _ (by simpa using hfion),
      List.find?_cons_of_neg _ (by simpa using hfou),
      List.find?_cons_of_neg _ (by simpa using hfism),
      List.find?_cons_of_neg _ (by simpa using hfate),
      List.find?_cons_of_neg _ (by simpa using hfiti),
      List.find?_cons_of_neg _ (by simpa using hfous),
      List.find?_cons_of_neg _ (by simpa using hfive)]
    exact List.find?_cons_of_pos _ (by simpa using h)
  rw [step4Claim_found hfind]
  simp only [step4]
  rw [if_neg (by omega), hch]
  rw [if_neg (show ¬(('z' : Char) = 'a') from by decide)]
  rw [if_neg (show ¬(('z' : Char) = 'c') from by decide)]
  rw [if_neg (show ¬(('z' : Char) = 'e') from by decide)]
  rw [if_neg (show ¬(('z' : Char) = 'i') from by decide)]
  rw [if_neg (show ¬(('z' : Char) = 'l') from by decide)]
  rw [if_neg (show ¬(('z' : Char) = 'n') from by decide)]
  rw [if_neg (show ¬(('z' : Char) = 'o') from by decide)]
  rw [if_neg (show ¬(('z' : Char) = 's') from by decide)]
  rw [if_neg (show ¬(('z' : Char) = 't') from by decide)]
  rw [if_neg (show ¬(('z' : Char) = 'u') from by decide)]
  rw [if_neg (show ¬(('z' : Char) = 'v') from by decide)]
  simp only [reduceIte]
  rw [if_pos h]
  rw [hb, show (toL "ize").length = 3 from by decide]
  simp only [eq_self_iff_true, and_true]
theorem step4_none (w : List Char)
    (hal : endswith w (toL "al") = false)
    (hance : endswith w (toL "ance") = false)
    (hence : endswith w (toL "ence") = false)
    (her : endswith w (toL "er") = false)
    (hic : endswith w (toL "ic") = false)
    (hable : endswith w (toL "able") = false)
    (hible : endswith w (toL "ible") = false)
    (hant : endswith w (toL "ant") = false)
    (hement : endswith w (toL "ement") = false)
    (hment : endswith w (toL "ment") = false)
    (hent : endswith w (toL "ent") = false)
    (hion : endswith w (toL "ion") = false)
    (hou : endswith w (toL "ou") = false)
    (hism : endswith w (toL "ism") = false)
    (hate : endswith w (toL "ate") = false)
    (hiti : endswith w (toL "iti") = false)
    (hous : endswith w (toL "ous") = false)
    (hive : endswith w (toL "ive") = false)
    (hize : endswith w (toL "ize") = false) :
    step4 w = step4Claim w := by
  have hsion : endswith w (toL "sion") = false := endswith_false_of_tail (by decide) hion
  have htion : endswith w (toL "tion") = false := endswith_false_of_tail (by decide) hion
  have hfind : step4Rules.find? (fun r => endswith w r.1) = none := by
    unfold step4Rules
    rw [List.find?_cons_of_neg _ (by simpa using hal),
      List.find?_cons_of_neg _ (by simpa using hance),
      List.find?_cons_of_neg _ (by simpa using hence),
      List.find?_cons_of_neg _ (by simpa using her),
      List.find?_cons_of_neg _ (by simpa using hic),
      List.find?_cons_of_neg _ (by simpa using hable),
      List.find?_cons_of_neg _ (by simpa using hible),
      List.find?_cons_of_neg _ (by simpa using hant),
      List.find?_cons_of_neg _ (by simpa using hement),
      List.find?_cons_of_neg _ (by simpa using hment),
      List.find?_cons_of_neg _ (by simpa using hent),
      List.find?_cons_of_neg _ (by simpa using hion),
      List.find?_cons_of_neg _ (by simpa using hou),
      List.find?_cons_of_neg _ (by simpa using hism),
      List.find?_cons_of_neg _ (by simpa using hate),
      List.find?_cons_of_neg _ (by simpa using hiti),
      List.find?_cons_of_neg _ (by simpa using hous),
      List.find?_cons_of_neg _ (by simpa using hive),
      List.find?_cons_of_neg _ (by simpa using hize)]
    rfl
  rw [step4Claim_not_found hfind]
  simp only [step4]
  rw [if_neg (show ¬(endswith w (toL "al") = true) from by simp [hal])]
  rw [if_neg (show ¬(endswith w (toL "ance") = true) from by simp [hance])]
  rw [if_neg (show ¬(endswith w (toL "ence") = true) from by simp [hence])]
  rw [if_neg (show ¬(endswith w (toL "er") = true) from by simp [her])]
  rw [if_neg (show ¬(endswith w (toL "ic") = true) from by simp [hic])]
  rw [if_neg (show ¬(endswith w (toL "able") = true) from by simp [hable])]
  rw [if_neg (show ¬(endswith w (toL "ible") = true) from by simp [hible])]
  rw [if_neg (show ¬(endswith w (toL "ant") = true) from by simp [hant])]
  rw [if_neg (show ¬(endswith w (toL "ement") = true) from by simp [hement])]
  rw [if_neg (show ¬(endswith w (toL "ment") = true) from by simp [hment])]
  rw [if_neg (show ¬(endswith w (toL "ent") = true) from by simp [hent])]
  rw [if_neg (show ¬((endswith w (toL "sion") || endswith w (toL "tion")) = true)
    from by simp [hsion, htion])]
  rw [if_neg (show ¬(endswith w (toL "ou") = true) from by simp [hou])]
  rw [if_neg (show ¬(endswith w (toL "ism") = true) from by simp [hism])]
  rw [if_neg (show ¬(endswith w (toL "ate") = true) from by simp [hate])]
  rw [if_neg (show ¬(endswith w (toL "iti") = true) from by simp [hiti])]
  rw [if_neg (show ¬(endswith w (toL "ous") = true) from by simp [hous])]
  rw [if_neg (show ¬(endswith w (toL "ive") = true) from by simp [hive])]
  rw [if_neg (show ¬(endswith w (toL "ize") = true) from by simp [hize])]
  simp only [ite_self]

/-- C7: step 4 of the stemmer agrees, on every word, with the claim's ordered
rule table: the first matching suffix among al, ance, ence, er, ic, able, ible,
ant, ement, ment, ent, ion, ou, ism, ate, iti, ous, ive, ize decides; it is
removed exactly when the measure of the remaining stem exceeds 1 and, for
"ion", the stem additionally ends in s or t; otherwise, and when no suffix
matches, the word is returned unchanged. -/
theorem claim7_step4 (w : List Char) : step4 w = step4Claim w := by
  by_cases hal : endswith w (toL "al") = true
  · exact step4_both_al w hal
  by_cases hance : endswith w (toL "ance") = true
  · exact step4_both_ance w hance
  by_cases hence : endswith w (toL "ence") = true
  · exact step4_both_ence w hence
  by_cases her : endswith w (toL "er") = true
  · exact step4_both_er w her
  by_cases hic : endswith w (toL "ic") = true
  · exact step4_both_ic w hic
  by_cases hable : endswith w (toL "able") = true
  · exact step4_both_able w hable
  by_cases hible : endswith w (toL "ible") = true
  · exact step4_both_ible w hible
  by_cases hant : endswith w (toL "ant") = true
  · exact step4_both_ant w hant
  by_cases hement : endswith w (toL "ement") = true
  · exact step4_both_ement w hement
  by_cases hment : endswith w (toL "ment") = true
  · exact step4_both_ment w hment (bfalse hement)
  by_cases hent : endswith w (toL "ent") = true
  · exact step4_both_ent w hent (bfalse hment)
  by_cases hion : endswith w (toL "ion") = true
  · exact step4_both_ion w hion
  by_cases hou : endswith w (toL "ou") = true
  · exact step4_both_ou w hou
  by_cases hism : endswith w (toL "ism") = true
  · exact step4_both_ism w hism
  by_cases hate : endswith w (toL "ate") = true
  · exact step4_both_ate w hate
  by_cases hiti : endswith w (toL "iti") = true
  · exact step4_both_iti w hiti
  by_cases hous : endswith w (toL "ous") = true
  · exact step4_both_ous w hous
  by_cases hive : endswith w (toL "ive") = true
  · exact step4_both_ive w hive
  by_cases hize : endswith w (toL "ize") = true
  · exact step4_both_ize w hize
  exact step4_none w (bfalse hal) (bfalse hance) (bfalse hence) (bfalse her) (bfalse hic)
    (bfalse hable) (bfalse hible) (bfalse hant) (bfalse hement) (bfalse hment) (bfalse hent)
    (bfalse hion) (bfalse hou) (bfalse hism) (bfalse hate) (bfalse hiti) (bfalse hous)
    (bfalse hive) (bfalse hize)

/-- C8: the output of `stem` is never longer than the input, and no single
step of the pipeline (including step 1b with its -e, -ate, -ble and -ize
restorations after the longer ed/ing strip) produces a result longer than
the word it received; lowercasing preserves the length. -/
theorem claim8_no_lengthening :
    (∀ w : List Char, (stem w).length ≤ w.length) ∧
    (∀ w : List Char, (step1a w).length ≤ w.length) ∧
    (∀ w : List Char, (step1b w).length ≤ w.length) ∧
    (∀ w : List Char, (step1c w).length ≤ w.length) ∧
    (∀ w : List Char, (step2 w).length ≤ w.length) ∧
    (∀ w : List Char, (step3 w).length ≤ w.length) ∧
    (∀ w : List Char, (step4 w).length ≤ w.length) ∧
    (∀ w : List Char, (step5 w).length ≤ w.length) ∧
    (∀ w : List Char, (lower w).length = w.length) := by
  refine ⟨?_, step1a_length, step1b_length, step1c_length, step2_length,
    step3_length, step4_length, step5_length, fun w => by simp [lower]⟩
  intro w
  unfold stem
  cases hp : pool.lookup w with
  | some p => exact pool_lookup_length hp
  | none =>
    split_ifs with h2
    · exact le_refl _
    · show (step5 (step4 (step3 (step2 (step1c (step1b (step1a (lower w)))))))).length ≤
        w.length
      have hl : (lower w).length = w.length := by simp [lower]
      have ha := step1a_length (lower w)
      have hb := step1b_length (step1a (lower w))
      have hc := step1c_length (step1b (step1a (lower w)))
      have hd := step2_length (step1c (step1b (step1a (lower w))))
      have he := step3_length (step2 (step1c (step1b (step1a (lower w)))))
      have hf := step4_length (step3 (step2 (step1c (step1b (step1a (lower w))))))
      have hg := step5_length (step4 (step3 (step2 (step1c (step1b (step1a (lower w)))))))
      omega

end Porter
